import Mathlib

/-!
Shallow embedding of the cld-tools causal-graph engine
(`src/adjacency-list.js`, `src/cgml.js`, `src/tarjan.js`,
`src/causal-graph.js`, `src/graph-simulator.js`).

JavaScript numbers are modelled exactly over `ℚ`; `Number(x.toFixed(2))`
becomes `round2` (round half towards +infinity at two decimals, matching the
ECMAScript `toFixed` tie rule "pick the larger n").  JavaScript dictionaries
(plain objects keyed by node name) are modelled as insertion-ordered
association lists: updating an existing key keeps its position, a new key is
appended, exactly like JS object property order.  Code that can throw is
modelled in `Except String`.
-/

namespace CLD

/-- Edge from `adjacency-list.js`: target node name, valence, optional label. -/
structure Edge where
  targetName : String
  isOpposite : Bool
  label : String := ""
  deriving DecidableEq, Repr

/-- The source's `concat` reads `e.name` on an `Edge`, but the `Edge` class
declares no `name` property, so in JavaScript that read yields `undefined`.
We model the absent property as `none`. -/
def Edge.nameProp (_ : Edge) : Option String := (none : Option String)

/-- The method `Edge.clone` from `adjacency-list.js` (copies the three declared fields). -/
def Edge.clone (e : Edge) : Edge :=
  { targetName := e.targetName, isOpposite := e.isOpposite, label := e.label }

/-- Node from `adjacency-list.js`: canonical name, display label, ordered
outgoing edges, provenance subgraph ids. -/
structure Node where
  name : String
  label : String
  adjacentEdges : List Edge
  subgraphs : List String := []
  deriving DecidableEq, Repr

/-- The method `Node.clone` from `adjacency-list.js` (deep-copies the edge list and
slices the subgraph list). -/
def Node.clone (n : Node) : Node :=
  { name := n.name, label := n.label,
    adjacentEdges := n.adjacentEdges.map Edge.clone,
    subgraphs := n.subgraphs }

/-- Placeholder for a JavaScript `undefined` array read; never produced by the
operations on well-formed inputs. -/
def dummyNode : Node := { name := "", label := "", adjacentEdges := [] }

/-- The class `AdjacencyList` from `adjacency-list.js`.  The `id` is a uuid in the
source; it is data the algorithms never branch on, so we carry it as an
opaque-to-the-caller string chosen at construction. -/
structure AdjacencyList where
  nodes : List Node
  id : String := ""
  deriving DecidableEq, Repr

/-- The source function `AdjacencyList.findNodeByName`: first node with the given name, else
`null`. -/
def AdjacencyList.findNodeByName (al : AdjacencyList) (name : String) : Option Node :=
  al.nodes.find? (fun node => node.name == name)

/-- The source function `AdjacencyList.findNodeIndexByName`: index of the first node with the
given name, else `-1`. -/
def AdjacencyList.findNodeIndexByName (al : AdjacencyList) (name : String) : Int :=
  match al.nodes.findIdx? (fun node => node.name == name) with
  | some i => (i : Int)
  | none => -1

/-- Inner loop of `AdjacencyList.concat`: fold the source node's
`adjacentEdges`, mutating `this`.  `srcIdx` is the position of `thisSource`
(stable: the loop only ever appends nodes).  The membership test maps
`e => e.name` over the existing edges — `Edge.nameProp`, always `undefined`
in the source — and the `otherTarget.clone()` on a `null` lookup is the
`TypeError` branch. -/
def concatEdges (al : AdjacencyList) (otherAL : AdjacencyList) (srcIdx : Nat) :
    List Edge → Except String AdjacencyList
  | [] => .ok al
  | edge :: rest =>
    let otherTargetName := edge.targetName
    let otherTarget := otherAL.findNodeByName otherTargetName
    let thisSource := al.nodes.getD srcIdx dummyNode
    let adjEdgeNames := thisSource.adjacentEdges.map Edge.nameProp
    if some otherTargetName ∈ adjEdgeNames then
      concatEdges al otherAL srcIdx rest
    else
      let pushEdge : AdjacencyList → AdjacencyList := fun al2 =>
        let src := al2.nodes.getD srcIdx dummyNode
        let src2 := { src with adjacentEdges := src.adjacentEdges ++ [edge.clone] }
        { al2 with nodes := al2.nodes.set srcIdx src2 }
      match al.findNodeByName otherTargetName with
      | some _ => concatEdges (pushEdge al) otherAL srcIdx rest
      | none =>
        match otherTarget with
        | none => .error "TypeError: otherTarget is null"
        | some t =>
          let thisTarget := { t.clone with adjacentEdges := [] }
          let al2 := { al with nodes := al.nodes ++ [thisTarget] }
          concatEdges (pushEdge al2) otherAL srcIdx rest

/-- Outer loop of `AdjacencyList.concat` over `otherAL.nodes`. -/
def concatNodes (al : AdjacencyList) (otherAL : AdjacencyList) :
    List Node → Except String AdjacencyList
  | [] => .ok al
  | otherSource :: rest =>
    match al.nodes.findIdx? (fun node => node.name == otherSource.name) with
    | none => concatNodes { al with nodes := al.nodes ++ [otherSource.clone] } otherAL rest
    | some srcIdx =>
      match concatEdges al otherAL srcIdx otherSource.adjacentEdges with
      | .error e => .error e
      | .ok al2 => concatNodes al2 otherAL rest

/-- The source function `AdjacencyList.concat` from `adjacency-list.js` (pure version: returns the
mutated `this`). -/
def AdjacencyList.concat (al otherAL : AdjacencyList) : Except String AdjacencyList :=
  concatNodes al otherAL otherAL.nodes

/-- The source function `AdjacencyList.flattenSubgraphs`: resets every node's subgraph list to the
graph's own id. -/
def AdjacencyList.flattenSubgraphs (al : AdjacencyList) : AdjacencyList :=
  { al with nodes := al.nodes.map (fun n => { n with subgraphs := [al.id] }) }

/-- The source function `AdjacencyList.findInboundAdjacentNodes`: throws when no node carries the
name; otherwise scans every node, skipping the node that *is* the named one
(the source compares object references, i.e. the first index that matched),
and keeps the first edge per node whose `targetName` matches. -/
def AdjacencyList.findInboundAdjacentNodes (al : AdjacencyList) (nodeName : String) :
    Except String (List (Node × Edge)) :=
  match al.nodes.findIdx? (fun node => node.name == nodeName) with
  | none => .error ("No node found with name " ++ nodeName ++ ".")
  | some i0 =>
    .ok (al.nodes.enum.filterMap (fun p =>
      if p.1 = i0 then none
      else
        match p.2.adjacentEdges.find? (fun e => e.targetName == nodeName) with
        | some e => some (p.2, e)
        | none => none))

/-- Boolean prefix test on character lists (structural, kernel-reducible). -/
def charsLead : List Char → List Char → Bool
  | [], _ => true
  | _ :: _, [] => false
  | a :: as, b :: bs => a == b && charsLead as bs

/-- Splitting loop for `jsSplitOn`; the fuel starts at `length + 1` and is
never exhausted before the input is. -/
def splitOnAuxC (sep : List Char) : Nat → List Char → List Char → List (List Char)
  | 0, _, acc => [acc.reverse]
  | _ + 1, [], acc => [acc.reverse]
  | fuel + 1, c :: cs, acc =>
    if charsLead sep (c :: cs) then
      acc.reverse :: splitOnAuxC sep fuel ((c :: cs).drop sep.length) []
    else
      splitOnAuxC sep fuel cs (c :: acc)

/-- JavaScript `s.split(sep)` for a non-empty separator: the chunks between
the non-overlapping left-to-right occurrences of `sep` (the only separators
the source uses are `"->"`, `"//"` and `"\n"`). -/
def jsSplitOn (sep : String) (s : String) : List String :=
  if sep.toList.isEmpty then [s]
  else (splitOnAuxC sep.toList (s.toList.length + 1) s.toList []).map String.mk

/-- JavaScript `s.trim()` (the whitespace in the modelled inputs is ASCII). -/
def jsTrim (s : String) : String :=
  String.mk (((s.toList.dropWhile Char.isWhitespace).reverse.dropWhile
    Char.isWhitespace).reverse)

/-- JavaScript `s.startsWith(pre)`. -/
def jsStartsWith (s pre : String) : Bool :=
  charsLead pre.toList s.toList

/-- JavaScript `s.endsWith(post)`. -/
def jsEndsWith (s post : String) : Bool :=
  charsLead post.toList.reverse s.toList.reverse

/-- JavaScript `s.slice(0, s.length - 1)`. -/
def jsDropLast1 (s : String) : String :=
  String.mk s.toList.dropLast

/-- First index of a character in a list, if any. -/
def firstIdxOf (cs : List Char) (c : Char) : Option Nat :=
  cs.findIdx? (fun x => x == c)

/-- Last index of a character in a list, if any. -/
def lastIdxOf (cs : List Char) (c : Char) : Option Nat :=
  match (cs.reverse.findIdx? (fun x => x == c)) with
  | some i => some (cs.length - 1 - i)
  | none => none

/-- The source function `parseNodeName` from `cgml.js`.  The regex `(.*?)(\((.*)\))` matches iff
the string has a `(` with some `)` strictly after it; lazy-then-greedy makes
group 3 the text between the first `(` and the last `)`, and group 1 the text
before that `(`. -/
def parseNodeName (str : String) : Node :=
  match firstIdxOf str.toList '(' with
  | none => { name := jsTrim str, label := jsTrim str, adjacentEdges := [] }
  | some i =>
    match lastIdxOf str.toList ')' with
    | none => { name := jsTrim str, label := jsTrim str, adjacentEdges := [] }
    | some j =>
      if i < j then
        { name := jsTrim (String.mk ((str.toList.drop (i + 1)).take (j - i - 1))),
          label := jsTrim (String.mk (str.toList.take i)),
          adjacentEdges := [] }
      else
        { name := jsTrim str, label := jsTrim str, adjacentEdges := [] }

/-- The source function `parseCGMLLine` from `cgml.js`: comment and blank lines yield an empty
graph; otherwise the text before a trailing `//` comment must split into
exactly two parts around `->`, the left operand's trailing `o` (negative) or
`-` (long arrow) is stripped, and the line becomes a two-node mini graph. -/
def parseCGMLLine (line : String) : Except String AdjacencyList :=
  if jsStartsWith (jsTrim line) "//" then .ok { nodes := [] }
  else if jsTrim line == "" then .ok { nodes := [] }
  else
    let parts := jsSplitOn "//" line
    let nodeText := parts.headD ""
    let edgeLabel := match parts.get? 1 with
      | none => ""
      | some s => if s == "" then "" else jsTrim s
    let split := jsSplitOn "->" nodeText
    if split.length ≠ 2 then .error "Each line must contain exactly one arrow."
    else
      let left0 := split.headD ""
      let right0 := (split.get? 1).getD ""
      let isOpposite := jsEndsWith left0 "o"
      let left1 :=
        if jsEndsWith left0 "o" then jsDropLast1 left0
        else if jsEndsWith left0 "-" then jsDropLast1 left0
        else left0
      let left := jsTrim left1
      let right := jsTrim right0
      let target := parseNodeName right
      let edge : Edge := { targetName := target.name, isOpposite := isOpposite,
                           label := edgeLabel }
      let source := { parseNodeName left with adjacentEdges := [edge] }
      .ok { nodes := [source, target] }

/-- Line-folding loop of `parseCGML`. -/
def parseCGMLLines (al : AdjacencyList) : List String → Except String AdjacencyList
  | [] => .ok al
  | line :: rest =>
    match parseCGMLLine line with
    | .error e => .error e
    | .ok subGraph =>
      match al.concat subGraph with
      | .error e => .error e
      | .ok al2 => parseCGMLLines al2 rest

/-- The source function `parseCGML` from `cgml.js`: fold every line of the trimmed input into an
initially empty graph via `concat`, then flatten the subgraph ids.  The `id`
argument stands for the uuid the constructor would generate. -/
def parseCGML (id : String) (cgml : String) : Except String AdjacencyList :=
  match parseCGMLLines { nodes := [], id := id } (jsSplitOn "\n" (jsTrim cgml)) with
  | .error e => .error e
  | .ok g => .ok g.flattenSubgraphs

/-- The source function `adjacencyListToNumericGraph` from `tarjan.js`: each node's edges become
the indices of their target nodes (`-1` for a name that does not resolve). -/
def adjacencyListToNumericGraph (al : AdjacencyList) : List (List Int) :=
  al.nodes.map (fun node =>
    node.adjacentEdges.map (fun edge => al.findNodeIndexByName edge.targetName))

/-- Mutable state threaded through the `js_tarjan` recursion: the (mutated)
numeric graph, the cycle dictionary (as an insertion-ordered duplicate-free
list of index paths), the `marked` flags and the two stacks (stored in
JavaScript array order: push and pop at the end). -/
structure TarjanState where
  G : List (List Int)
  cycles : List (List Int)
  marked : List Bool
  markedStack : List Int
  pointStack : List Int
  deriving Repr

/-- Read `$G[v]`; an out-of-range read is `undefined`, whose `?.forEach` does
nothing, i.e. behaves as an empty row. -/
def getRow (G : List (List Int)) (v : Int) : List Int :=
  if v < 0 then [] else G.getD v.toNat []

/-- Write `$G[w] = []`; only ever performed on valid indices (or on `-1`,
which the numeric iteration never reads back). -/
def setRow (G : List (List Int)) (w : Int) : List (List Int) :=
  if w < 0 then G else G.set w.toNat []

/-- Read `$marked[w]` as JavaScript sees it (`none` for out of range). -/
def markedAt (marked : List Bool) (w : Int) : Option Bool :=
  if w < 0 then none else marked.get? w.toNat

/-- Write `$marked[x] = b` (in range only; all writes in the source are). -/
def setMarked (marked : List Bool) (x : Int) (b : Bool) : List Bool :=
  if x < 0 then marked else marked.set x.toNat b

/-- The statement `$cycles[$point_stack.join('|')] = true`: record a cycle keyed by its
index sequence, keeping the first insertion. -/
def insertCycle (cycles : List (List Int)) (c : List Int) : List (List Int) :=
  if c ∈ cycles then cycles else cycles ++ [c]

/-- Entry bookkeeping of `js_tarjan(s, v)`: mark `v` and push it on both
stacks. -/
def tarjanPrologue (st : TarjanState) (v : Int) : TarjanState :=
  { st with marked := setMarked st.marked v true,
            markedStack := st.markedStack ++ [v],
            pointStack := st.pointStack ++ [v] }

/-- The `while ($marked_stack.slice(-1)[0] !== $v)` loop: unmark and pop until
`v` is on top, then pop and unmark `v` itself.  Takes the stack reversed
(top first). -/
def popUntilRev (v : Int) : List Int → List Bool → List Int × List Bool
  | [], marked => ([], marked)
  | x :: rest, marked =>
    if x = v then (rest, setMarked marked x false)
    else popUntilRev v rest (setMarked marked x false)

/-- Exit bookkeeping of `js_tarjan(s, v)`: when the flag is set, pop the
marked stack down past `v`; always pop the point stack. -/
def tarjanEpilogue (st : TarjanState) (v : Int) (f : Bool) : TarjanState :=
  let st1 :=
    if f then
      let p := popUntilRev v st.markedStack.reverse st.marked
      { st with markedStack := p.1.reverse, marked := p.2 }
    else st
  { st1 with pointStack := st1.pointStack.dropLast }

/-- The `$G[$v]?.forEach` body of `js_tarjan`, processing the remaining row
entries for vertex `v` in the search rooted at `s`; a recursive visit of an
unmarked `w` is prologue + row loop + epilogue.  After any recursive call the
source sets the flag via `if ($f.length !== 0 || $t.length !== 0)`, which is
always true for booleans (`false.length` is `undefined`), so the flag is set
unconditionally there.  Fuel bounds the recursion; `none` means fuel ran
out. -/
def tarjanRun : Nat → Int → Int → List Int → TarjanState → Bool →
    Option (TarjanState × Bool)
  | 0, _, _, _, _, _ => none
  | Nat.succ _, _, _, [], st, f => some (st, f)
  | Nat.succ fuel, s, v, w :: rest, st, f =>
    if w < s then
      tarjanRun fuel s v rest { st with G := setRow st.G w } f
    else if w = s then
      tarjanRun fuel s v rest { st with cycles := insertCycle st.cycles st.pointStack } true
    else if markedAt st.marked w = some false then
      let st1 := tarjanPrologue st w
      match tarjanRun fuel s w (getRow st1.G w) st1 false with
      | none => none
      | some (st2, t) =>
        tarjanRun fuel s v rest (tarjanEpilogue st2 w t) true
    else
      tarjanRun fuel s v rest st f

/-- A full `js_tarjan(i, i)` call for root `i`. -/
def tarjanVisitRoot (fuel : Nat) (i : Int) (st : TarjanState) : Option TarjanState :=
  let st1 := tarjanPrologue st i
  match tarjanRun fuel i i (getRow st1.G i) st1 false with
  | none => none
  | some (st2, t) => some (tarjanEpilogue st2 i t)

/-- The per-root reset in `js_tarjan_entry`: unmark everything left on the
marked stack. -/
def clearMarkedStack (st : TarjanState) : TarjanState :=
  { st with marked := st.markedStack.foldl (fun m x => setMarked m x false) st.marked,
            markedStack := [] }

/-- Fuel given to each root's search; far larger than any search the concrete
claims perform. -/
def TARJAN_FUEL : Nat := 1000

/-- The source function `js_tarjan_entry`: run the rooted searches in index order, resetting the
marked stack after each, and return the recorded cycles (insertion order, as
`Object.keys` on the non-numeric keys). -/
def tarjanEntry (G0 : List (List Int)) : Option (List (List Int)) :=
  let init : TarjanState :=
    { G := G0, cycles := [], marked := List.replicate G0.length false,
      markedStack := [], pointStack := [] }
  let final := (List.range G0.length).foldlM
    (fun st i => (tarjanVisitRoot TARJAN_FUEL (i : Int) st).map clearMarkedStack) init
  final.map TarjanState.cycles

/-- The source function `tarjanSCC` from `tarjan.js`: enumerate the elementary cycles of the
graph and translate the index paths back to nodes. -/
def tarjanSCC (al : AdjacencyList) : Option (List (List Node)) :=
  (tarjanEntry (adjacencyListToNumericGraph al)).map
    (fun cycles => cycles.map (fun c => c.map (fun i => al.nodes.getD i.toNat dummyNode)))

/-- The class `CausalLoop` from `causal-graph.js`: the nodes of a cycle and the edges
walked to close it. -/
structure CausalLoop where
  nodes : List Node
  edges : List Edge
  deriving DecidableEq, Repr

/-- The getter `CausalLoop.isBalancing`: odd number of opposite edges. -/
def CausalLoop.isBalancing (cl : CausalLoop) : Bool :=
  (cl.edges.filter (fun e => e.isOpposite)).length % 2 ≠ 0

/-- The getter `CausalLoop.type`: `"BALANCING"` or `"REINFORCING"`. -/
def CausalLoop.type (cl : CausalLoop) : String :=
  if cl.isBalancing then "BALANCING" else "REINFORCING"

/-- Placeholder for a JavaScript `undefined` edge read; never produced on the
inputs the claims evaluate. -/
def dummyEdge : Edge := { targetName := "", isOpposite := false, label := "" }

/-- The inner `for (const edge of node.adjacentEdges)` loop of
`CausalGraph.analyzeLoops` (causal-graph.js line 35-41).  Its condition
`if (edge.targetName = nextNode.name)` is an assignment used as a test: each
visited edge's `targetName` is overwritten with `nextNode.name`, and the
assigned value is then checked for truthiness.  A string is truthy exactly
when it is nonempty, so the loop overwrites and breaks at the very first
edge whenever `nextNode.name` is nonempty, and otherwise overwrites every
edge without ever breaking.  Returns the mutated edge list and the index of
the edge `theEdge` ends up referencing, if any. -/
def assignFindEdge (nextName : String) : List Edge → List Edge × Option Nat
  | [] => ([], none)
  | e :: rest =>
    if nextName ≠ "" then ({ e with targetName := nextName } :: rest, some 0)
    else
      let p := assignFindEdge nextName rest
      ({ e with targetName := nextName } :: p.1, p.2.map (fun j => j + 1))

/-- One iteration of the outer `for (const [ind, node] of cl.nodes.entries())`
loop of `analyzeLoops`: scan node `i`'s edges with the assignment-condition
loop, write the mutated node back into the shared node list (JavaScript
object references are modeled as indices into that list), and return the
mutated list together with the reference `(node index, edge index)` held by
`theEdge`; when no edge was selected the source throws `Could not find
edge`. -/
def recoverLoopEdge (nodes : List Node) (i : Nat) (nextName : String) :
    Except String (List Node × (Nat × Nat)) :=
  let node := nodes.getD i dummyNode
  let p := assignFindEdge nextName node.adjacentEdges
  match p.2 with
  | some j => .ok (nodes.set i { node with adjacentEdges := p.1 }, (i, j))
  | none => .error ("Could not find edge between \"" ++ node.name ++ "\" and \""
      ++ nextName ++ "\"")

/-- The body of the edge-recovery loop over one cycle, given the cycle's node
references (as indices) already paired with their positions: thread the
mutated node list left to right and collect the edge references pushed onto
`edges`.  The cyclically-next node's name is read from the current (mutated)
list, as the source reads it from the live object. -/
def findLoopEdgesAux (cycle : List Nat) :
    List (Nat × Nat) → List Node → Except String (List Node × List (Nat × Nat))
  | [], nodes => .ok (nodes, [])
  | p :: rest, nodes =>
    let nextIdx := cycle.getD ((p.1 + 1) % cycle.length) 0
    let nextName := (nodes.getD nextIdx dummyNode).name
    match recoverLoopEdge nodes p.2 nextName with
    | .error e => .error e
    | .ok q =>
      match findLoopEdgesAux cycle rest q.1 with
      | .error e => .error e
      | .ok r => .ok (r.1, q.2 :: r.2)

/-- Edge recovery for one cycle of `analyzeLoops`: iterate
`cl.nodes.entries()` with the assignment-condition scan, mutating the shared
node list. -/
def findLoopEdges (nodes : List Node) (cycle : List Nat) :
    Except String (List Node × List (Nat × Nat)) :=
  findLoopEdgesAux cycle cycle.enum nodes

/-- The outer `for (const cycle of cycles)` loop of `analyzeLoops`: process
the cycles in order, threading the shared (mutated) node list, and record for
each cycle its node indices together with the references of its recovered
edges. -/
def analyzeLoopsAux :
    List (List Nat) → List Node →
    Except String (List Node × List (List Nat × List (Nat × Nat)))
  | [], nodes => .ok (nodes, [])
  | cycle :: rest, nodes =>
    match findLoopEdges nodes cycle with
    | .error e => .error e
    | .ok q =>
      match analyzeLoopsAux rest q.1 with
      | .error e => .error e
      | .ok r => .ok (r.1, (cycle, q.2) :: r.2)

/-- The source function `CausalGraph.analyzeLoops` from `causal-graph.js`,
acting on the underlying adjacency list: run the cycle search (`tarjanSCC`
returns references into the same node list, kept here as indices), then
recover each cycle's edges with the assignment-condition loop, which mutates
the shared nodes.  The returned `CausalLoop`s hold object references, so
their node and edge contents are read off the final mutated node list.
`none` only when the cycle search runs out of fuel. -/
def analyzeLoops (al : AdjacencyList) : Option (Except String (List CausalLoop)) :=
  (tarjanEntry (adjacencyListToNumericGraph al)).map (fun cycleInds =>
    match analyzeLoopsAux (cycleInds.map (fun c => c.map Int.toNat)) al.nodes with
    | .error e => .error e
    | .ok r => .ok (r.2.map (fun cl =>
        { nodes := cl.1.map (fun i => r.1.getD i dummyNode),
          edges := cl.2.map (fun er =>
            (r.1.getD er.1 dummyNode).adjacentEdges.getD er.2 dummyEdge) })))

/-- Summary of a loop analysis: each loop's length and polarity label. -/
def analyzeLoopsSummary (al : AdjacencyList) : Option (Except String (List (Nat × String))) :=
  (analyzeLoops al).map (fun r => r.map (fun loops =>
    loops.map (fun cl => (cl.nodes.length, cl.type))))

/-- Lookup in a JavaScript-object-as-dictionary (first, and with unique keys
only, occurrence of the key). -/
def dictGet {α : Type} : List (String × α) → String → Option α
  | [], _ => none
  | p :: rest, k => if p.1 = k then some p.2 else dictGet rest k

/-- Assignment `d[k] = v` on a JavaScript object: an existing key keeps its
position, a new key is appended. -/
def dictSet {α : Type} : List (String × α) → String → α → List (String × α)
  | [], k, v => [(k, v)]
  | p :: rest, k, v =>
    if p.1 = k then (k, v) :: rest else p :: dictSet rest k v

/-- The expression `Number(x.toFixed(2))`: round to two decimal places.  ECMAScript's
`toFixed` picks the larger candidate on a tie, i.e. rounds half towards
positive infinity, which is exactly Mathlib's `round`. -/
def round2 (x : ℚ) : ℚ := ((round (x * 100) : ℤ) : ℚ) / 100

/-- The constant `DEFAULT_EDGE_ALPHA` from `graph-simulator.js`. -/
def DEFAULT_EDGE_ALPHA : ℚ := 1 / 10

/-- The constant `DEFAULT_INITIAL_VALUE` from `graph-simulator.js`. -/
def DEFAULT_INITIAL_VALUE : ℚ := 1

/-- The options object of the `GraphSimulatorSimple` constructor with its
defaults. -/
structure SimOptions where
  initialValues : List (String × ℚ) := []
  edgeAlpha : ℚ := DEFAULT_EDGE_ALPHA
  targets : List (String × ℚ) := []

/-- The expression `initialValues[node.name] || DEFAULT_INITIAL_VALUE`: JavaScript `||`
falls back to the default not only for a missing key but also for a falsy
value, i.e. `0` (`NaN` has no counterpart in `ℚ`). -/
def jsOr (x : Option ℚ) (d : ℚ) : ℚ :=
  match x with
  | some v => if v = 0 then d else v
  | none => d

/-- The class `GraphSimulatorSimple` state.  The source stores the `CausalGraph`
wrapper and accesses `this.graph.adjList`; we store the adjacency list
directly. -/
structure GraphSimulatorSimple where
  graph : AdjacencyList
  edgeAlpha : ℚ
  values : List (String × ℚ)
  history : List (String × List ℚ)
  targets : List (String × ℚ)
  deriving Repr

/-- First constructor loop: seed `values` and `history` for every node. -/
def initValuesHistory (initialValues : List (String × ℚ)) :
    List Node → List (String × ℚ) × List (String × List ℚ) →
    List (String × ℚ) × List (String × List ℚ)
  | [], acc => acc
  | node :: rest, (vs, hs) =>
    let v := jsOr (dictGet initialValues node.name) DEFAULT_INITIAL_VALUE
    initValuesHistory initialValues rest (dictSet vs node.name v, dictSet hs node.name [v])

/-- Second constructor loop: every `initialValues` key must belong to a node
already seeded in `values`. -/
def checkInitialValues (values : List (String × ℚ)) :
    List (String × ℚ) → Except String Unit
  | [] => .ok ()
  | (k, _) :: rest =>
    if (dictGet values k).isNone then
      .error ("Initial value for " ++ k ++ " provided but node does not exist.")
    else checkInitialValues values rest

/-- Third constructor loop: check each target key against `values` and record
it. -/
def addTargets (values : List (String × ℚ)) :
    List (String × ℚ) → List (String × ℚ) → Except String (List (String × ℚ))
  | acc, [] => .ok acc
  | acc, (k, v) :: rest =>
    if (dictGet values k).isNone then
      .error ("Target for " ++ k ++ " provided but node does not exist.")
    else addTargets values (dictSet acc k v) rest

/-- The `GraphSimulatorSimple` constructor. -/
def mkGraphSimulatorSimple (graph : AdjacencyList) (opts : SimOptions) :
    Except String GraphSimulatorSimple :=
  match checkInitialValues (initValuesHistory opts.initialValues graph.nodes ([], [])).1
      opts.initialValues with
  | .error e => .error e
  | .ok _ =>
    match addTargets (initValuesHistory opts.initialValues graph.nodes ([], [])).1 []
        opts.targets with
    | .error e => .error e
    | .ok tgts =>
      .ok { graph := graph, edgeAlpha := opts.edgeAlpha,
            values := (initValuesHistory opts.initialValues graph.nodes ([], [])).1,
            history := (initValuesHistory opts.initialValues graph.nodes ([], [])).2,
            targets := tgts }

/-- One inbound contribution in `run`:
`(this.values[inboundNode.name] - target) * this.edgeAlpha * oppositeMul`,
with `target = this.targets[inboundNode.name] || 0` (for numbers `|| 0` is
exactly "0 when absent"). -/
def contribution (sim : GraphSimulatorSimple) (p : Node × Edge) : ℚ :=
  ((dictGet sim.values p.1.name).getD 0 - (dictGet sim.targets p.1.name).getD 0) *
    sim.edgeAlpha * (if p.2.isOpposite then -1 else 1)

/-- Per-node body of the `run` loop, threading the accumulated `newValues`
and `history`.  Deltas are read from the pre-step `sim.values`; the node's
starting value is read from the accumulated `newValues` clone; the rounded
result is stored and pushed on the node's history (a missing history entry
would be a JavaScript `TypeError` on `.push`). -/
def runNodes (sim : GraphSimulatorSimple) :
    List Node → List (String × ℚ) × List (String × List ℚ) →
    Except String (List (String × ℚ) × List (String × List ℚ))
  | [], acc => .ok acc
  | node :: rest, (nv, hs) =>
    match sim.graph.findInboundAdjacentNodes node.name with
    | .error e => .error e
    | .ok inboundNodes =>
      let newValue := round2 ((dictGet nv node.name).getD 0 +
        (inboundNodes.map (contribution sim)).sum)
      match dictGet hs node.name with
      | none => .error "TypeError: history entry is undefined"
      | some h =>
        runNodes sim rest (dictSet nv node.name newValue, dictSet hs node.name (h ++ [newValue]))

/-- The method `GraphSimulatorSimple.run`: one synchronous step. -/
def GraphSimulatorSimple.run (sim : GraphSimulatorSimple) :
    Except String GraphSimulatorSimple :=
  match runNodes sim sim.graph.nodes (sim.values, sim.history) with
  | .error e => .error e
  | .ok (nv, hs) => .ok { sim with values := nv, history := hs }

/-- The effect of `k` consecutive `run()` calls. -/
def iterRun : Nat → GraphSimulatorSimple → Except String GraphSimulatorSimple
  | 0, sim => .ok sim
  | Nat.succ k, sim =>
    match sim.run with
    | .error e => .error e
    | .ok sim2 => iterRun k sim2

/-- The source function `meanBetween` from `graph-simulator.js`: mean of `arr[startInd..endInd]`
(inclusive), guarded exactly as in the source. -/
def meanBetween (arr : List ℚ) (startInd endInd : Int) : Except String ℚ :=
  if startInd < 0 ∨ endInd < 0 ∨ (arr.length : Int) ≤ startInd ∨
      (arr.length : Int) ≤ endInd then
    .error "startInd or endInd out of range."
  else if endInd ≤ startInd then
    .error "startInd exceeds endInd"
  else
    .ok (((List.range (endInd.toNat - startInd.toNat + 1)).map
        (fun j => arr.getD (startInd.toNat + j) 0)).sum /
      ((endInd.toNat - startInd.toNat + 1 : ℕ) : ℚ))

/-- The `for` loop of `downsample`: one `meanBetween` call per bin index, the
first throw aborting the whole computation. -/
def downsampleLoop (arr : List ℚ) (sampling : ℚ) : List Nat → Except String (List ℚ)
  | [] => .ok []
  | i :: rest =>
    match meanBetween arr ⌊(i : ℚ) * sampling⌋ (⌊((i : ℚ) + 1) * sampling⌋ - 1) with
    | .error e => .error e
    | .ok v =>
      match downsampleLoop arr sampling rest with
      | .error e => .error e
      | .ok vs => .ok (v :: vs)

/-- The source function `downsample` from `graph-simulator.js`: reject more bins than elements,
then average each of the `binCount` floor-partitioned slices. -/
def downsample (arr : List ℚ) (binCount : Nat) : Except String (List ℚ) :=
  if arr.length < binCount then
    .error "Cannot downsample: array length exceeds binCount."
  else
    downsampleLoop arr ((arr.length : ℚ) / (binCount : ℚ)) (List.range binCount)

/-- Written from the spec's words (§4.1 `inboundNeighbors`, claim C5): every
`(sourceNode, edge)` pair, over *all* nodes of the graph, whose edge
satisfies `edge.targetName == name`.  Used to compare the specified query
against the implemented one. -/
def claimedInboundPairs (al : AdjacencyList) (name : String) : List (Node × Edge) :=
  al.nodes.flatMap (fun src =>
    (src.adjacentEdges.filter (fun e => e.targetName == name)).map (fun e => (src, e)))

/-- Written from the spec's words as amended: every matching
`(sourceNode, edge)` pair over the nodes *other than* the named node
itself. -/
def specInboundPairs (al : AdjacencyList) (name : String) : List (Node × Edge) :=
  (al.nodes.filter (fun src => src.name != name)).flatMap (fun src =>
    (src.adjacentEdges.filter (fun e => e.targetName == name)).map (fun e => (src, e)))

/-- Per-node body of the inbound scan, with the reference-equality skip
replaced by a name skip (equivalent under unique names). -/
def inboundScan (nm : String) (node : Node) : Option (Node × Edge) :=
  if node.name == nm then none
  else (node.adjacentEdges.find? (fun e => e.targetName == nm)).map (fun e => (node, e))

/-- The list the implemented inbound query returns (empty in the error case,
which never occurs for a name present in the graph). -/
def inboundOrNil (al : AdjacencyList) (nm : String) : List (Node × Edge) :=
  match al.findInboundAdjacentNodes nm with
  | .ok l => l
  | .error _ => []

/-- The value one `run()` step stores for node `n`: the previous value plus
the inbound contributions, rounded to two decimals. -/
def stepValue (sim : GraphSimulatorSimple) (n : Node) : ℚ :=
  round2 ((dictGet sim.values n.name).getD 0 +
    ((inboundOrNil sim.graph n.name).map (contribution sim)).sum)

/-- Concrete two-node graph `A -> B` used by several witnesses. -/
def witGraphAB : AdjacencyList :=
  { nodes := [{ name := "A", label := "A",
                adjacentEdges := [{ targetName := "B", isOpposite := false }] },
              { name := "B", label := "B", adjacentEdges := [] }],
    id := "w" }

/-- The simulator values of `A -> B -> C -> A` with the default configuration
after 3 steps. -/
def c2Trace : Except String (List (String × ℚ)) := do
  let g ← parseCGML "c2t" "A -> B\nB -> C\nC -> A"
  let sim ← mkGraphSimulatorSimple g {}
  let sim2 ← iterRun 3 sim
  pure sim2.values

/-- The default simulator over the literal graph `A -> B -> C -> A`. -/
def c2WitSim : GraphSimulatorSimple :=
  { graph := { nodes := [
      { name := "A", label := "A",
        adjacentEdges := [{ targetName := "B", isOpposite := false }] },
      { name := "B", label := "B",
        adjacentEdges := [{ targetName := "C", isOpposite := false }] },
      { name := "C", label := "C",
        adjacentEdges := [{ targetName := "A", isOpposite := false }] }], id := "w2" },
    edgeAlpha := 1 / 10,
    values := [("A", 1), ("B", 1), ("C", 1)],
    history := [("A", [1]), ("B", [1]), ("C", [1])],
    targets := [] }

/-- The default simulator over the literal graph `A -> B`. -/
def c6WitSim : GraphSimulatorSimple :=
  { graph := witGraphAB,
    edgeAlpha := 1 / 10,
    values := [("A", 1), ("B", 1)],
    history := [("A", [1]), ("B", [1])],
    targets := [] }

/-- The default simulator state over `A -> B` as the constructor builds it. -/
def c10WitSim : GraphSimulatorSimple :=
  { graph := witGraphAB,
    edgeAlpha := 1 / 10,
    values := [("A", 1), ("B", 1)],
    history := [("A", [1]), ("B", [1])],
    targets := [] }

/-- The simulator over `A -> B` with `A` initialized to 3, as the constructor
builds it. -/
def c8WitSim : GraphSimulatorSimple :=
  { graph := witGraphAB,
    edgeAlpha := 1 / 10,
    values := [("A", 3), ("B", 1)],
    history := [("A", [3]), ("B", [1])],
    targets := [] }

/-- Written from the spec's words (claim C9): the mean of the raw values of
`arr` whose indices fall in the half-open range
`[⌊i·n/b⌋, ⌊(i+1)·n/b⌋)` (floors of naturals are `Nat` division). -/
def binMean (arr : List ℚ) (b i : Nat) : ℚ :=
  ((arr.drop (i * arr.length / b)).take
      ((i + 1) * arr.length / b - i * arr.length / b)).sum /
    (((i + 1) * arr.length / b - i * arr.length / b : Nat) : ℚ)

/-! Concrete graphs and simulator runs used by the claim theorems. -/

/-- The four-line description of claim C1. -/
def c1Graph1 : Except String AdjacencyList :=
  parseCGML "doc1" "PF -> AR\nAR -> SG\nSG -> SE\nSE o-> PF"

/-- The C1 graph after merging the two-line overlapping description. -/
def c1Merged : Except String AdjacencyList := do
  let a ← c1Graph1
  let b ← parseCGML "doc2" "AR -> SI\nSI o-> PF"
  a.concat b

/-- C1: parsing the four-line description and analyzing loops yields exactly
one elementary cycle of length 4 classified BALANCING; after merging the
two-line description, loop analysis yields exactly 2 cycles (one length-4
BALANCING and one length-3 BALANCING) and the merged graph has exactly 5
nodes. -/
theorem c1_loop_analysis :
    c1Graph1.map analyzeLoopsSummary = .ok (some (.ok [(4, "BALANCING")])) ∧
    c1Merged.map (fun g => (analyzeLoopsSummary g, g.nodes.length)) =
      .ok (some (.ok [(4, "BALANCING"), (3, "BALANCING")]), 5) :=
  ⟨by rfl, by rfl⟩

/-- The graph `A -> B`, used to exercise `concat` with an identical copy. -/
def c3Graph : Except String AdjacencyList := parseCGML "g3" "A -> B"

/-- C3 (code bug): merging `A -> B` with an identical copy of itself leaves
the node count at 2 but appends a duplicate `A -> B` edge, because the
presence test in `concat` reads the nonexistent `name` property of each edge
(`Edge.nameProp`, always `undefined`) instead of `targetName`, so it never
detects an existing edge. -/
theorem c3_duplicate_edge :
    (c3Graph.bind (fun g => g.concat g)).map
        (fun g => g.nodes.map (fun n => (n.name, n.adjacentEdges.map Edge.targetName))) =
      .ok [("A", ["B", "B"]), ("B", [])] ∧
    (c3Graph.bind (fun g => g.concat g)).map (fun g => g.nodes.length) = .ok 2 :=
  ⟨by rfl, by rfl⟩

/-- C4 counterexample: the line `A -> B // x -> y` contains two occurrences
of the arrow separator `->` (its `->`-split has three parts), yet parsing
succeeds, because the arrow count is taken after stripping the trailing `//`
comment — contradicting the claim that a line with more than one arrow
raises an error. -/
theorem c4_counterexample :
    (jsSplitOn "->" "A -> B // x -> y").length = 3 ∧
    (parseCGML "c4" "A -> B // x -> y").isOk = true :=
  ⟨by rfl, by rfl⟩

/-- A single node `A` carrying an edge to itself (what `parseCGML "A -> A"`
produces). -/
def selfLoopGraph : AdjacencyList :=
  { id := "g",
    nodes := [{ name := "A", label := "A",
                adjacentEdges := [{ targetName := "A", isOpposite := false }],
                subgraphs := ["g"] }] }

/-- C5 counterexample: on the self-loop graph the implemented inbound query
returns the empty list, while the set of (source, edge) pairs over all nodes
with `edge.targetName == "A"` has one element — the query skips the named
node itself, contradicting the claim's "over all nodes". -/
theorem c5_counterexample :
    selfLoopGraph.findInboundAdjacentNodes "A" = .ok [] ∧
    (claimedInboundPairs selfLoopGraph "A").length = 1 :=
  ⟨by rfl, by rfl⟩

/-- The default simulator over the parsed self-loop `A -> A`. -/
def c2CexSim : Except String GraphSimulatorSimple := do
  let g ← parseCGML "c2" "A -> A"
  mkGraphSimulatorSimple g {}

/-- C2 counterexample: on the self-loop `A -> A` with default configuration,
one `run()` leaves `A` at 1 (the query that feeds the update skips the node
itself), while the claim's formula — summing over all inbound (source, edge)
pairs, which here includes the self-loop — predicts 1.1. -/
theorem c2_counterexample :
    (c2CexSim.bind GraphSimulatorSimple.run).toOption.map
        (fun s => dictGet s.values "A") = some (some 1) ∧
    c2CexSim.toOption.map (fun s =>
        round2 ((dictGet s.values "A").getD 0 +
          ((claimedInboundPairs s.graph "A").map (contribution s)).sum)) =
      some (11 / 10) ∧
    (1 : ℚ) ≠ 11 / 10 :=
  ⟨by with_unfolding_all rfl, by with_unfolding_all rfl, by norm_num⟩

/-- The graph `A -> B` with `A` initialized to 0.005; `A` has no inbound
edges at all, and its stored value before and after one `run()`. -/
def c6CexPair : Except String (Option ℚ × Option ℚ) := do
  let g ← parseCGML "c6" "A -> B"
  let sim ← mkGraphSimulatorSimple g { initialValues := [("A", 1 / 200)] }
  let sim2 ← iterRun 1 sim
  pure (dictGet sim.values "A", dictGet sim2.values "A")

/-- C6 counterexample: node `A` of `A -> B` has no inbound edges (not even
counting `A` itself), yet with initial value 0.005 a single `run()` moves its
value to 0.01, because the unchanged sum is still rounded to two decimals —
contradicting "never changes value across any number of run() calls". -/
theorem c6_counterexample :
    c6CexPair.toOption = some (some (1 / 200), some (1 / 100)) ∧
    (1 / 200 : ℚ) ≠ 1 / 100 ∧
    (parseCGML "c6" "A -> B").toOption.map (fun g => claimedInboundPairs g "A") =
      some [] :=
  ⟨by with_unfolding_all rfl, by norm_num, by rfl⟩

/-- The stored value of `A` after constructing a simulator over `A -> B` with
the explicit initial value 0. -/
def c8CexValue : Except String (Option ℚ) := do
  let g ← parseCGML "c8" "A -> B"
  let sim ← mkGraphSimulatorSimple g { initialValues := [("A", 0)] }
  pure (dictGet sim.values "A")

/-- C8 counterexample: an individually specified initial value of 0 is
ignored — `initialValues[name] || DEFAULT` treats the falsy 0 as absent and
stores the shared default 1 instead, contradicting `values[n] = v`. -/
theorem c8_counterexample :
    c8CexValue.toOption = some (some 1) ∧ (1 : ℚ) ≠ 0 :=
  ⟨by rfl, by norm_num⟩

/-- C9 counterexample: `downsample([1,2,3], 3)` has `binCount ≤ arr.length`,
so the claim says it returns the three bin means `[1, 2, 3]`; the code
instead throws from `meanBetween`, whose guard rejects every single-element
bin (`endInd <= startInd`). -/
theorem c9_counterexample :
    ([1, 2, 3] : List ℚ).length = 3 ∧
    downsample [1, 2, 3] 3 = .error "startInd exceeds endInd" :=
  ⟨by rfl, by with_unfolding_all rfl⟩

/-! Dictionary lemmas. -/

theorem dictGet_dictSet_self {α : Type} (d : List (String × α)) (k : String) (v : α) :
    dictGet (dictSet d k v) k = some v := by
  induction d with
  | nil => simp [dictGet, dictSet]
  | cons p rest ih =>
    by_cases h : p.1 = k <;> simp [dictGet, dictSet, h, ih]

theorem dictGet_dictSet_ne {α : Type} (d : List (String × α)) (k k' : String) (v : α)
    (h : k' ≠ k) : dictGet (dictSet d k v) k' = dictGet d k' := by
  have hkk : ¬(k = k') := fun he => h he.symm
  induction d with
  | nil => simp [dictGet, dictSet, hkk]
  | cons p rest ih =>
    by_cases hp : p.1 = k
    · have hpk : ¬(p.1 = k') := fun he => h (he.symm.trans hp)
      simp [dictGet, dictSet, hp, hkk, hpk]
    · by_cases hp' : p.1 = k' <;> simp [dictGet, dictSet, hp, hp', hkk, h, ih]

/-! Constructor lemmas: the first loop seeds `values`/`history` exactly for
the graph's node names. -/

theorem initVH_not_mem (iv : List (String × ℚ)) (nodes : List Node)
    (vs : List (String × ℚ)) (hs : List (String × List ℚ)) (nm : String)
    (h : nm ∉ nodes.map Node.name) :
    dictGet (initValuesHistory iv nodes (vs, hs)).1 nm = dictGet vs nm ∧
    dictGet (initValuesHistory iv nodes (vs, hs)).2 nm = dictGet hs nm := by
  induction nodes generalizing vs hs with
  | nil => simp [initValuesHistory]
  | cons n rest ih =>
    simp only [List.map_cons, List.mem_cons, not_or] at h
    have hne : nm ≠ n.name := h.1
    have := ih (dictSet vs n.name (jsOr (dictGet iv n.name) DEFAULT_INITIAL_VALUE))
      (dictSet hs n.name [jsOr (dictGet iv n.name) DEFAULT_INITIAL_VALUE]) h.2
    simpa [initValuesHistory, dictGet_dictSet_ne _ _ _ _ hne] using this

theorem initVH_mem (iv : List (String × ℚ)) (nodes : List Node)
    (vs : List (String × ℚ)) (hs : List (String × List ℚ)) (nm : String)
    (h : nm ∈ nodes.map Node.name) :
    dictGet (initValuesHistory iv nodes (vs, hs)).1 nm =
      some (jsOr (dictGet iv nm) DEFAULT_INITIAL_VALUE) ∧
    dictGet (initValuesHistory iv nodes (vs, hs)).2 nm =
      some [jsOr (dictGet iv nm) DEFAULT_INITIAL_VALUE] := by
  induction nodes generalizing vs hs with
  | nil => simp at h
  | cons n rest ih =>
    by_cases hr : nm ∈ rest.map Node.name
    · simpa [initValuesHistory] using ih _ _ hr
    · have hn : nm = n.name := by
        simp only [List.map_cons, List.mem_cons] at h
        tauto
      subst hn
      have := initVH_not_mem iv rest
        (dictSet vs n.name (jsOr (dictGet iv n.name) DEFAULT_INITIAL_VALUE))
        (dictSet hs n.name [jsOr (dictGet iv n.name) DEFAULT_INITIAL_VALUE]) n.name hr
      simpa [initValuesHistory, dictGet_dictSet_self] using this

theorem initVH_isNone_iff (iv : List (String × ℚ)) (nodes : List Node) (nm : String) :
    dictGet (initValuesHistory iv nodes ([], [])).1 nm = none ↔
      nm ∉ nodes.map Node.name := by
  constructor
  · intro hnone hmem
    have := (initVH_mem iv nodes [] [] nm hmem).1
    rw [hnone] at this
    exact Option.noConfusion this
  · intro hmem
    have := (initVH_not_mem iv nodes [] [] nm hmem).1
    simpa [dictGet] using this

/-! Error characterization of the two constructor check loops. -/

theorem checkInitialValues_error_iff (values : List (String × ℚ))
    (l : List (String × ℚ)) :
    (∃ e, checkInitialValues values l = .error e) ↔
      ∃ p ∈ l, dictGet values p.1 = none := by
  induction l with
  | nil => simp [checkInitialValues]
  | cons p rest ih =>
    by_cases h : (dictGet values p.1).isNone
    · simp only [checkInitialValues, if_pos h]
      constructor
      · intro _
        exact ⟨p, List.mem_cons_self _ _, Option.isNone_iff_eq_none.mp h⟩
      · intro _
        exact ⟨_, rfl⟩
    · simp only [checkInitialValues, if_neg h]
      rw [ih]
      constructor
      · rintro ⟨q, hq, hnone⟩
        exact ⟨q, List.mem_cons_of_mem _ hq, hnone⟩
      · rintro ⟨q, hq, hnone⟩
        rcases List.mem_cons.mp hq with rfl | hq2
        · exact absurd (Option.isNone_iff_eq_none.mpr hnone) h
        · exact ⟨q, hq2, hnone⟩

theorem addTargets_error_iff (values : List (String × ℚ))
    (acc l : List (String × ℚ)) :
    (∃ e, addTargets values acc l = .error e) ↔
      ∃ p ∈ l, dictGet values p.1 = none := by
  induction l generalizing acc with
  | nil => simp [addTargets]
  | cons p rest ih =>
    by_cases h : (dictGet values p.1).isNone
    · simp only [addTargets, if_pos h]
      constructor
      · intro _
        exact ⟨p, List.mem_cons_self _ _, Option.isNone_iff_eq_none.mp h⟩
      · intro _
        exact ⟨_, rfl⟩
    · simp only [addTargets, if_neg h]
      rw [ih]
      constructor
      · rintro ⟨q, hq, hnone⟩
        exact ⟨q, List.mem_cons_of_mem _ hq, hnone⟩
      · rintro ⟨q, hq, hnone⟩
        rcases List.mem_cons.mp hq with rfl | hq2
        · exact absurd (Option.isNone_iff_eq_none.mpr hnone) h
        · exact ⟨q, hq2, hnone⟩

theorem mkSim_error_iff (graph : AdjacencyList) (opts : SimOptions) :
    (∃ e, mkGraphSimulatorSimple graph opts = .error e) ↔
      ((∃ p ∈ opts.initialValues, p.1 ∉ graph.nodes.map Node.name) ∨
       (∃ p ∈ opts.targets, p.1 ∉ graph.nodes.map Node.name)) := by
  unfold mkGraphSimulatorSimple
  split
  next e heq =>
    constructor
    · intro _
      left
      rcases (checkInitialValues_error_iff _ _).mp ⟨e, heq⟩ with ⟨p, hp, hnone⟩
      exact ⟨p, hp, (initVH_isNone_iff _ _ _).mp hnone⟩
    · intro _
      exact ⟨e, rfl⟩
  next u heq =>
    split
    next e heq2 =>
      constructor
      · intro _
        right
        rcases (addTargets_error_iff _ _ _).mp ⟨e, heq2⟩ with ⟨p, hp, hnone⟩
        exact ⟨p, hp, (initVH_isNone_iff _ _ _).mp hnone⟩
      · intro _
        exact ⟨e, rfl⟩
    next tgts heq2 =>
      constructor
      · rintro ⟨e, he⟩
        exact Except.noConfusion he
      · rintro (⟨p, hp, habs⟩ | ⟨p, hp, habs⟩)
        · rcases (checkInitialValues_error_iff _ _).mpr
            ⟨p, hp, (initVH_isNone_iff _ _ _).mpr habs⟩ with ⟨e2, he2⟩
          rw [heq] at he2
          exact Except.noConfusion he2
        · rcases (addTargets_error_iff _ _ _).mpr
            ⟨p, hp, (initVH_isNone_iff _ _ _).mpr habs⟩ with ⟨e2, he2⟩
          rw [heq2] at he2
          exact Except.noConfusion he2

theorem mkSim_ok_fields (graph : AdjacencyList) (opts : SimOptions)
    (sim : GraphSimulatorSimple) (h : mkGraphSimulatorSimple graph opts = .ok sim) :
    sim.graph = graph ∧ sim.edgeAlpha = opts.edgeAlpha ∧
    sim.values = (initValuesHistory opts.initialValues graph.nodes ([], [])).1 ∧
    sim.history = (initValuesHistory opts.initialValues graph.nodes ([], [])).2 := by
  unfold mkGraphSimulatorSimple at h
  split at h
  next e heq => exact Except.noConfusion h
  next u heq =>
    split at h
    next e heq2 => exact Except.noConfusion h
    next tgts heq2 =>
      injection h with h2
      subst h2
      exact ⟨rfl, rfl, rfl, rfl⟩

/-- C7: simulator construction fails exactly when some `initialValues` or
`targets` entry names a node absent from the graph; the check runs in the
constructor (`mkGraphSimulatorSimple`), not in `run`.  In particular
`targets = ("X", 10)` on the parsed graph `A -> B` (which has no node `X`)
fails at construction. -/
theorem c7_construction_error :
    (∀ (graph : AdjacencyList) (opts : SimOptions),
      (∃ e, mkGraphSimulatorSimple graph opts = .error e) ↔
        ((∃ p ∈ opts.initialValues, p.1 ∉ graph.nodes.map Node.name) ∨
         (∃ p ∈ opts.targets, p.1 ∉ graph.nodes.map Node.name))) ∧
    (parseCGML "c7" "A -> B").toOption.map
      (fun g => (mkGraphSimulatorSimple g { targets := [("X", 10)] }).isOk) =
      some false :=
  ⟨mkSim_error_iff, by with_unfolding_all rfl⟩

/-- Witness for C7: the concrete unknown-target configuration produces a
construction-time error on `A -> B`. -/
theorem c7_construction_error_witness :
    ∃ e, mkGraphSimulatorSimple
        { nodes := [{ name := "A", label := "A",
                      adjacentEdges := [{ targetName := "B", isOpposite := false }] },
                    { name := "B", label := "B", adjacentEdges := [] }], id := "w7" }
        { targets := [("X", 10)] } = .error e := by
  refine (c7_construction_error.1 _ _).mpr (Or.inr ⟨("X", 10), ?_, ?_⟩)
  · exact List.mem_singleton.mpr rfl
  · decide

/-! Characterization of `findInboundAdjacentNodes`. -/

theorem findIdx?_le_of_eq_some {α : Type} (p : α → Bool) :
    ∀ (l : List α) (s i : Nat), List.findIdx? p l s = some i → s ≤ i := by
  intro l
  induction l with
  | nil => intro s i h; simp [List.findIdx?] at h
  | cons a rest ih =>
    intro s i h
    rw [List.findIdx?_cons] at h
    by_cases hp : p a
    · rw [if_pos hp] at h
      injection h with h0
      omega
    · rw [if_neg hp] at h
      have := ih (s + 1) i h
      omega

theorem findIdx?_exists_of_eq_some {α : Type} (p : α → Bool) :
    ∀ (l : List α) (s i : Nat), List.findIdx? p l s = some i → ∃ x ∈ l, p x := by
  intro l
  induction l with
  | nil => intro s i h; simp [List.findIdx?] at h
  | cons a rest ih =>
    intro s i h
    rw [List.findIdx?_cons] at h
    by_cases hp : p a
    · exact ⟨a, List.mem_cons_self _ _, hp⟩
    · rw [if_neg hp] at h
      rcases ih (s + 1) i h with ⟨x, hx, hpx⟩
      exact ⟨x, List.mem_cons_of_mem _ hx, hpx⟩

theorem enumFrom_filterMap_no_skip {α β : Type} (i0 : Nat) (g : α → Option β) :
    ∀ (l : List α) (k : Nat), i0 < k →
      (List.enumFrom k l).filterMap (fun p => if p.1 = i0 then none else g p.2) =
        l.filterMap g := by
  intro l
  induction l with
  | nil => intro k _; rfl
  | cons a rest ih =>
    intro k hk
    have hne : ¬(k = i0) := by omega
    simp only [List.enumFrom, List.filterMap_cons, hne, if_false]
    rw [ih (k + 1) (by omega)]

/-- Generalized scan equivalence: starting the index-based skip at offset `k`
with the found index `i0`, unique names let the index skip be replaced by the
name skip. -/
theorem inboundScan_aux (nm : String) :
    ∀ (nodes : List Node) (k i0 : Nat),
      (nodes.map Node.name).Nodup →
      List.findIdx? (fun node => node.name == nm) nodes k = some i0 →
      (List.enumFrom k nodes).filterMap (fun p =>
        if p.1 = i0 then none
        else
          match p.2.adjacentEdges.find? (fun e => e.targetName == nm) with
          | some e => some (p.2, e)
          | none => none) =
      nodes.filterMap (inboundScan nm) := by
  intro nodes
  induction nodes with
  | nil => intro k i0 _ h; simp [List.findIdx?] at h
  | cons n rest ih =>
    intro k i0 hnodup heq
    rw [List.findIdx?_cons] at heq
    rw [List.map_cons, List.nodup_cons] at hnodup
    have hnodup2 := hnodup
    by_cases hp : n.name == nm
    · rw [if_pos hp] at heq
      injection heq with heq0
      subst heq0
      simp only [List.enumFrom, List.filterMap_cons, if_pos rfl]
      have hscan : inboundScan nm n = none := by simp [inboundScan, hp]
      rw [hscan]
      have hnoskip := enumFrom_filterMap_no_skip k
        (fun node =>
          match node.adjacentEdges.find? (fun e => e.targetName == nm) with
          | some e => some (node, e)
          | none => none) rest (k + 1) (by omega)
      rw [hnoskip]
      refine List.filterMap_congr ?_
      intro node hnode
      have hne : ¬(node.name == nm) := by
        intro hb
        refine hnodup2.1 ?_
        have heqn : n.name = node.name := (eq_of_beq hp).trans (eq_of_beq hb).symm
        rw [heqn]
        exact List.mem_map_of_mem _ hnode
      simp only [inboundScan, hne, if_false]
      cases node.adjacentEdges.find? (fun e => e.targetName == nm) <;> rfl
    · rw [if_neg hp] at heq
      have hk : k + 1 ≤ i0 := findIdx?_le_of_eq_some _ rest (k + 1) i0 heq
      simp only [List.enumFrom, List.filterMap_cons]
      rw [if_neg (show ¬(k = i0) by omega)]
      have hscan : inboundScan nm n =
          match n.adjacentEdges.find? (fun e => e.targetName == nm) with
          | some e => some (n, e)
          | none => none := by
        simp only [inboundScan, hp, if_false]
        cases n.adjacentEdges.find? (fun e => e.targetName == nm) <;> rfl
      rw [hscan, ih (k + 1) i0 hnodup2.2 heq]

/-- The implemented inbound query, under unique node names and when the node
exists, computes exactly the name-skipping scan. -/
theorem findInbound_eq_scan (al : AdjacencyList) (nm : String)
    (hnodup : (al.nodes.map Node.name).Nodup)
    (hmem : ∃ n ∈ al.nodes, n.name = nm) :
    al.findInboundAdjacentNodes nm = .ok (al.nodes.filterMap (inboundScan nm)) := by
  unfold AdjacencyList.findInboundAdjacentNodes
  split
  next heq =>
    exfalso
    rcases hmem with ⟨n, hn, hname⟩
    have := List.findIdx?_eq_none_iff.mp heq n hn
    simp [hname] at this
  next i0 heq =>
    congr 1
    rw [List.enum_eq_enumFrom]
    exact inboundScan_aux nm al.nodes 0 i0 hnodup heq

/-- The implemented inbound query throws exactly when no node of the given
name exists. -/
theorem findInbound_error_iff (al : AdjacencyList) (nm : String) :
    (∃ e, al.findInboundAdjacentNodes nm = .error e) ↔
      ∀ n ∈ al.nodes, n.name ≠ nm := by
  unfold AdjacencyList.findInboundAdjacentNodes
  split
  next heq =>
    refine iff_of_true ⟨_, rfl⟩ ?_
    intro n hn
    have := List.findIdx?_eq_none_iff.mp heq n hn
    simpa using this
  next i0 heq =>
    refine iff_of_false ?_ ?_
    · rintro ⟨e, he⟩
      exact Except.noConfusion he
    · intro hall
      rcases findIdx?_exists_of_eq_some _ al.nodes 0 i0 heq with ⟨n, hn, hpn⟩
      exact hall n hn (eq_of_beq hpn)

/-- With duplicate-free edge targets, filtering for a target keeps at most
one edge: the one `find?` returns. -/
theorem find?_toList_eq_filter (edges : List Edge) (nm : String)
    (h : (edges.map Edge.targetName).Nodup) :
    edges.filter (fun e => e.targetName == nm) =
      (edges.find? (fun e => e.targetName == nm)).toList := by
  induction edges with
  | nil => rfl
  | cons e rest ih =>
    rw [List.map_cons, List.nodup_cons] at h
    have h2 := h
    by_cases hp : e.targetName == nm
    · have hrest : rest.filter (fun x => x.targetName == nm) = [] := by
        rw [List.filter_eq_nil_iff]
        intro x hx hb
        refine h2.1 ?_
        have heqt : e.targetName = x.targetName := (eq_of_beq hp).trans (eq_of_beq hb).symm
        rw [heqt]
        exact List.mem_map_of_mem _ hx
      simp [List.filter_cons, List.find?_cons, hp, hrest]
    · simp only [List.filter_cons, List.find?_cons, hp, if_false]
      rw [ih h2.2]
      rfl

/-- Under unique per-node edge targets, the name-skipping scan over a node
list returns exactly the specified pair list. -/
theorem scan_eq_spec_list (nm : String) :
    ∀ (nodes : List Node),
      (∀ m ∈ nodes, (m.adjacentEdges.map Edge.targetName).Nodup) →
      nodes.filterMap (inboundScan nm) =
        (nodes.filter (fun src => src.name != nm)).flatMap
          (fun src => (src.adjacentEdges.filter (fun e => e.targetName == nm)).map
            (fun e => (src, e))) := by
  intro nodes
  induction nodes with
  | nil => intro _; rfl
  | cons n rest ih =>
    intro htargets
    have hn := htargets n (List.mem_cons_self _ _)
    have hrest : ∀ m ∈ rest, (m.adjacentEdges.map Edge.targetName).Nodup :=
      fun m hm => htargets m (List.mem_cons_of_mem _ hm)
    by_cases hname : n.name == nm
    · have hskip : (n.name != nm) = false := by
        simp only [bne, hname, Bool.not_true]
      simp only [List.filterMap_cons, inboundScan, hname, if_true, List.filter_cons,
        hskip, Bool.false_eq_true, if_false]
      exact ih hrest
    · have hskip : (n.name != nm) = true := by
        simp only [bne, hname, Bool.not_false]
      simp only [List.filterMap_cons, inboundScan, hname, if_false, List.filter_cons,
        hskip, if_true, List.flatMap_cons]
      rw [find?_toList_eq_filter n.adjacentEdges nm hn]
      cases hf : n.adjacentEdges.find? (fun e => e.targetName == nm) with
      | none => simpa [hf] using ih hrest
      | some e => simpa [hf] using ih hrest

/-- Under unique names and unique per-node edge targets, the name-skipping
scan returns exactly the specified pair list. -/
theorem scan_eq_spec (al : AdjacencyList) (nm : String)
    (htargets : ∀ m ∈ al.nodes, (m.adjacentEdges.map Edge.targetName).Nodup) :
    al.nodes.filterMap (inboundScan nm) = specInboundPairs al nm :=
  scan_eq_spec_list nm al.nodes htargets

/-- A vacuous inbound scan: if no differently-named node carries an edge to
`nm`, the scan is empty. -/
theorem scan_eq_nil (nm : String) :
    ∀ (nodes : List Node),
      (∀ m ∈ nodes, m.name ≠ nm → ∀ e ∈ m.adjacentEdges, e.targetName ≠ nm) →
      nodes.filterMap (inboundScan nm) = [] := by
  intro nodes
  induction nodes with
  | nil => intro _; rfl
  | cons n rest ih =>
    intro hno
    have hrest : ∀ m ∈ rest, m.name ≠ nm → ∀ e ∈ m.adjacentEdges, e.targetName ≠ nm :=
      fun m hm => hno m (List.mem_cons_of_mem _ hm)
    by_cases hname : n.name == nm
    · simp only [List.filterMap_cons, inboundScan, hname, if_true]
      exact ih hrest
    · have hfind : n.adjacentEdges.find? (fun e => e.targetName == nm) = none := by
        rw [List.find?_eq_none]
        intro e he
        have := hno n (List.mem_cons_self _ _) (by simpa using hname) e he
        simpa using this
      simp only [List.filterMap_cons, inboundScan, hname, if_false, hfind,
        Option.map_none']
      exact ih hrest

theorem findInbound_ok_of_mem (al : AdjacencyList) (nm : String)
    (hmem : ∃ n ∈ al.nodes, n.name = nm) :
    al.findInboundAdjacentNodes nm = .ok (inboundOrNil al nm) := by
  unfold inboundOrNil
  rcases h : al.findInboundAdjacentNodes nm with e | l
  · exfalso
    rcases hmem with ⟨n, hn, hname⟩
    exact (findInbound_error_iff al nm).mp ⟨e, h⟩ n hn hname
  · rfl

theorem inboundOrNil_eq_spec (al : AdjacencyList) (nm : String)
    (hnodup : (al.nodes.map Node.name).Nodup)
    (htargets : ∀ m ∈ al.nodes, (m.adjacentEdges.map Edge.targetName).Nodup)
    (hmem : ∃ n ∈ al.nodes, n.name = nm) :
    inboundOrNil al nm = specInboundPairs al nm := by
  have h1 := findInbound_ok_of_mem al nm hmem
  have h2 := findInbound_eq_scan al nm hnodup hmem
  rw [h1] at h2
  injection h2 with h3
  rw [h3, scan_eq_spec al nm htargets]

theorem inboundOrNil_eq_nil (al : AdjacencyList) (nm : String)
    (hnodup : (al.nodes.map Node.name).Nodup)
    (hmem : ∃ n ∈ al.nodes, n.name = nm)
    (hno : ∀ m ∈ al.nodes, m.name ≠ nm → ∀ e ∈ m.adjacentEdges, e.targetName ≠ nm) :
    inboundOrNil al nm = [] := by
  have h1 := findInbound_ok_of_mem al nm hmem
  have h2 := findInbound_eq_scan al nm hnodup hmem
  rw [h1] at h2
  injection h2 with h3
  rw [h3, scan_eq_nil nm al.nodes hno]

/-- The per-node loop of `run`, characterized: it succeeds, updates every
processed node to its step value (computed from the accumulator entry it had
on arrival, which under unique names is the entry it started with), appends
that value to its history, and leaves all other keys untouched. -/
theorem runNodes_ok (sim : GraphSimulatorSimple) :
    ∀ (todo : List Node) (nv : List (String × ℚ)) (hs : List (String × List ℚ)),
      (∀ n ∈ todo, n ∈ sim.graph.nodes) →
      (todo.map Node.name).Nodup →
      (∀ n ∈ todo, (dictGet hs n.name).isSome) →
      ∃ nv2 hs2, runNodes sim todo (nv, hs) = .ok (nv2, hs2) ∧
        (∀ k, k ∉ todo.map Node.name →
          dictGet nv2 k = dictGet nv k ∧ dictGet hs2 k = dictGet hs k) ∧
        (∀ n ∈ todo,
          dictGet nv2 n.name =
            some (round2 ((dictGet nv n.name).getD 0 +
              ((inboundOrNil sim.graph n.name).map (contribution sim)).sum)) ∧
          dictGet hs2 n.name =
            some ((dictGet hs n.name).getD [] ++
              [round2 ((dictGet nv n.name).getD 0 +
                ((inboundOrNil sim.graph n.name).map (contribution sim)).sum)])) := by
  intro todo
  induction todo with
  | nil =>
    intro nv hs _ _ _
    exact ⟨nv, hs, rfl, fun k _ => ⟨rfl, rfl⟩, fun n hn => absurd hn (List.not_mem_nil n)⟩
  | cons n rest ih =>
    intro nv hs hsub hnodup hhs
    rw [List.map_cons, List.nodup_cons] at hnodup
    have hmem : ∃ m ∈ sim.graph.nodes, m.name = n.name :=
      ⟨n, hsub n (List.mem_cons_self _ _), rfl⟩
    have hfi := findInbound_ok_of_mem sim.graph n.name hmem
    obtain ⟨h0, hh0⟩ := Option.isSome_iff_exists.mp (hhs n (List.mem_cons_self _ _))
    have hstep : runNodes sim (n :: rest) (nv, hs) =
        runNodes sim rest
          (dictSet nv n.name
            (round2 ((dictGet nv n.name).getD 0 +
              ((inboundOrNil sim.graph n.name).map (contribution sim)).sum)),
           dictSet hs n.name
            (h0 ++ [round2 ((dictGet nv n.name).getD 0 +
              ((inboundOrNil sim.graph n.name).map (contribution sim)).sum)])) := by
      conv_lhs => rw [runNodes]
      rw [hfi, hh0]
    have hhs2 : ∀ m ∈ rest, (dictGet (dictSet hs n.name
        (h0 ++ [round2 ((dictGet nv n.name).getD 0 +
          ((inboundOrNil sim.graph n.name).map (contribution sim)).sum)])) m.name).isSome := by
      intro m hm
      by_cases hname : m.name = n.name
      · rw [hname, dictGet_dictSet_self]
        rfl
      · rw [dictGet_dictSet_ne _ _ _ _ hname]
        exact hhs m (List.mem_cons_of_mem _ hm)
    rcases ih _ _ (fun m hm => hsub m (List.mem_cons_of_mem _ hm)) hnodup.2 hhs2
      with ⟨nv2, hs2, hrun, hunch, hvals⟩
    refine ⟨nv2, hs2, hstep.trans hrun, ?_, ?_⟩
    · intro k hk
      rw [List.map_cons, List.mem_cons] at hk
      push_neg at hk
      have hk1 : k ≠ n.name := hk.1
      rcases hunch k hk.2 with ⟨hv2, hh2⟩
      rw [hv2, hh2, dictGet_dictSet_ne _ _ _ _ hk1, dictGet_dictSet_ne _ _ _ _ hk1]
      exact ⟨rfl, rfl⟩
    · intro m hm
      rcases List.mem_cons.mp hm with rfl | hm2
      · rcases hunch m.name hnodup.1 with ⟨hv2, hh2⟩
        rw [hv2, hh2, dictGet_dictSet_self, dictGet_dictSet_self, hh0]
        exact ⟨rfl, rfl⟩
      · have hne : m.name ≠ n.name := by
          intro he
          exact hnodup.1 (he ▸ List.mem_map_of_mem _ hm2)
        rcases hvals m hm2 with ⟨hv2, hh2⟩
        rw [hv2, hh2, dictGet_dictSet_ne _ _ _ _ hne, dictGet_dictSet_ne _ _ _ _ hne]
        exact ⟨rfl, rfl⟩

/-- One `run()` step, characterized. -/
theorem run_ok (sim : GraphSimulatorSimple)
    (hnodup : (sim.graph.nodes.map Node.name).Nodup)
    (hhs : ∀ n ∈ sim.graph.nodes, (dictGet sim.history n.name).isSome) :
    ∃ sim2, sim.run = .ok sim2 ∧ sim2.graph = sim.graph ∧
      sim2.edgeAlpha = sim.edgeAlpha ∧ sim2.targets = sim.targets ∧
      (∀ k, k ∉ sim.graph.nodes.map Node.name →
        dictGet sim2.values k = dictGet sim.values k ∧
        dictGet sim2.history k = dictGet sim.history k) ∧
      (∀ n ∈ sim.graph.nodes,
        dictGet sim2.values n.name = some (stepValue sim n) ∧
        dictGet sim2.history n.name =
          some ((dictGet sim.history n.name).getD [] ++ [stepValue sim n])) := by
  rcases runNodes_ok sim sim.graph.nodes sim.values sim.history (fun n h => h) hnodup hhs
    with ⟨nv2, hs2, hrun, hunch, hvals⟩
  refine ⟨{ sim with values := nv2, history := hs2 }, ?_, rfl, rfl, rfl, hunch, hvals⟩
  unfold GraphSimulatorSimple.run
  rw [hrun]

/-- C5 (amended): the inbound-neighbors query throws exactly when no node of
the name exists; when the node exists, and node names and each node's edge
targets are duplicate-free, it returns exactly the (source, edge) pairs with
`edge.targetName == name` over the nodes other than the named node itself. -/
theorem c5_inbound_query :
    (∀ (al : AdjacencyList) (nm : String),
      (∃ e, al.findInboundAdjacentNodes nm = .error e) ↔ ∀ n ∈ al.nodes, n.name ≠ nm) ∧
    (∀ (al : AdjacencyList) (nm : String),
      (al.nodes.map Node.name).Nodup →
      (∀ m ∈ al.nodes, (m.adjacentEdges.map Edge.targetName).Nodup) →
      (∃ n ∈ al.nodes, n.name = nm) →
      al.findInboundAdjacentNodes nm = .ok (specInboundPairs al nm)) := by
  refine ⟨findInbound_error_iff, ?_⟩
  intro al nm h1 h2 h3
  rw [findInbound_eq_scan al nm h1 h3, scan_eq_spec al nm h2]

/-- Witness for C5: on `A -> B` the query for `B` returns exactly the
specified pairs. -/
theorem c5_inbound_query_witness :
    witGraphAB.findInboundAdjacentNodes "B" = .ok (specInboundPairs witGraphAB "B") :=
  c5_inbound_query.2 witGraphAB "B" (by decide) (by decide)
    ⟨{ name := "B", label := "B", adjacentEdges := [] }, by decide, rfl⟩

/-- C2 (amended): one `run()` step sets every node's value to
`round2(value(n) + Σ over inbound (source, edge) pairs from nodes other than
n of (value(source) − target(source, default 0)) · edgeAlpha · (∓1))`, with
all contributions read from the pre-step values (so iteration order cannot
matter), provided node names and per-node edge targets are duplicate-free;
and the concrete trace: `A -> B -> C -> A` with defaults reaches value 1.33
on every node after 3 steps. -/
theorem c2_run_formula :
    (∀ (sim : GraphSimulatorSimple) (n : Node),
      (sim.graph.nodes.map Node.name).Nodup →
      (∀ m ∈ sim.graph.nodes, (m.adjacentEdges.map Edge.targetName).Nodup) →
      (∀ m ∈ sim.graph.nodes, (dictGet sim.history m.name).isSome) →
      n ∈ sim.graph.nodes →
      ∃ sim2, sim.run = .ok sim2 ∧
        dictGet sim2.values n.name =
          some (round2 ((dictGet sim.values n.name).getD 0 +
            ((specInboundPairs sim.graph n.name).map (contribution sim)).sum))) ∧
    c2Trace.toOption = some [("A", 133 / 100), ("B", 133 / 100), ("C", 133 / 100)] := by
  constructor
  · intro sim n hnodup htargets hhs hmem
    rcases run_ok sim hnodup hhs with ⟨sim2, hrun, _, _, _, _, hvals⟩
    refine ⟨sim2, hrun, ?_⟩
    rw [(hvals n hmem).1]
    unfold stepValue
    rw [inboundOrNil_eq_spec sim.graph n.name hnodup htargets ⟨n, hmem, rfl⟩]
  · with_unfolding_all rfl

/-- Witness for C2: one step of the cycle simulator computes node `A`'s value
by the amended formula. -/
theorem c2_run_formula_witness :
    ∃ sim2, c2WitSim.run = .ok sim2 ∧
      dictGet sim2.values "A" =
        some (round2 ((dictGet c2WitSim.values "A").getD 0 +
          ((specInboundPairs c2WitSim.graph "A").map (contribution c2WitSim)).sum)) :=
  c2_run_formula.1 c2WitSim
    { name := "A", label := "A",
      adjacentEdges := [{ targetName := "B", isOpposite := false }] }
    (by decide) (by decide) (by decide) (by decide)

/-- C6 (amended): a node with no inbound edges keeps its value across any
number of `run()` calls provided its stored initial value is exact at two
decimals (`round2 v = v`); in general the first step replaces it by
`round2 v`. -/
theorem c6_no_inbound_constant :
    ∀ (k : Nat) (sim : GraphSimulatorSimple) (n : Node) (v : ℚ),
      (sim.graph.nodes.map Node.name).Nodup →
      (∀ m ∈ sim.graph.nodes, (dictGet sim.history m.name).isSome) →
      n ∈ sim.graph.nodes →
      (∀ m ∈ sim.graph.nodes, m.name ≠ n.name →
        ∀ e ∈ m.adjacentEdges, e.targetName ≠ n.name) →
      dictGet sim.values n.name = some v →
      round2 v = v →
      ∃ sim2, iterRun k sim = .ok sim2 ∧ dictGet sim2.values n.name = some v := by
  intro k
  induction k with
  | zero =>
    intro sim n v _ _ _ _ hv _
    exact ⟨sim, rfl, hv⟩
  | succ k ih =>
    intro sim n v hnodup hhs hmem hno hv hround
    rcases run_ok sim hnodup hhs with ⟨sim2, hrun, hg, _, _, _, hvals⟩
    have hstep : stepValue sim n = v := by
      unfold stepValue
      rw [inboundOrNil_eq_nil sim.graph n.name hnodup ⟨n, hmem, rfl⟩ hno, hv]
      simpa using hround
    have hv2 : dictGet sim2.values n.name = some v := by
      rw [(hvals n hmem).1, hstep]
    have hnodup2 : (sim2.graph.nodes.map Node.name).Nodup := by
      rw [hg]; exact hnodup
    have hhs2 : ∀ m ∈ sim2.graph.nodes, (dictGet sim2.history m.name).isSome := by
      rw [hg]
      intro m hm
      rw [(hvals m hm).2]
      rfl
    have hmem2 : n ∈ sim2.graph.nodes := by rw [hg]; exact hmem
    have hno2 : ∀ m ∈ sim2.graph.nodes, m.name ≠ n.name →
        ∀ e ∈ m.adjacentEdges, e.targetName ≠ n.name := by
      rw [hg]; exact hno
    rcases ih sim2 n v hnodup2 hhs2 hmem2 hno2 hv2 hround with ⟨sim3, h3, hv3⟩
    have hiter : iterRun (k + 1) sim = iterRun k sim2 := by
      show (match sim.run with
        | Except.error e => Except.error e
        | Except.ok s => iterRun k s) = iterRun k sim2
      rw [hrun]
    exact ⟨sim3, hiter.trans h3, hv3⟩

/-- Witness for C6: node `A` of `A -> B` (no inbound edges, integral initial
value) still has value 1 after five runs. -/
theorem c6_no_inbound_constant_witness :
    ∃ sim2, iterRun 5 c6WitSim = .ok sim2 ∧ dictGet sim2.values "A" = some 1 :=
  c6_no_inbound_constant 5 c6WitSim
    { name := "A", label := "A",
      adjacentEdges := [{ targetName := "B", isOpposite := false }] } 1
    (by decide) (by decide) (by decide) (by decide) (by rfl)
    (by with_unfolding_all rfl)

theorem iterRun_succ_right (k : Nat) :
    ∀ sim : GraphSimulatorSimple, iterRun (k + 1) sim =
      match iterRun k sim with
      | .error e => .error e
      | .ok s => s.run := by
  induction k with
  | zero =>
    intro sim
    have h2 : iterRun 0 sim = Except.ok sim := rfl
    rw [h2]
    show (match sim.run with
      | Except.error e => Except.error e
      | Except.ok s => iterRun 0 s) = sim.run
    cases sim.run <;> rfl
  | succ k ih =>
    intro sim
    have h1 : iterRun (k + 1 + 1) sim =
        match sim.run with
        | Except.error e => Except.error e
        | Except.ok s => iterRun (k + 1) s := rfl
    have h2 : iterRun (k + 1) sim =
        match sim.run with
        | Except.error e => Except.error e
        | Except.ok s => iterRun k s := rfl
    rw [h1, h2]
    cases sim.run with
    | error e => rfl
    | ok s => exact ih s

/-- Invariant carried through the runs for C10. -/
theorem c10_aux (graph : AdjacencyList) (opts : SimOptions) (sim : GraphSimulatorSimple)
    (hnodup : (graph.nodes.map Node.name).Nodup)
    (hok : mkGraphSimulatorSimple graph opts = .ok sim) :
    ∀ k, ∃ sim2, iterRun k sim = .ok sim2 ∧ sim2.graph = graph ∧
      ∀ n ∈ graph.nodes, ∃ h, dictGet sim2.history n.name = some h ∧
        h.length = k + 1 ∧ h.head? = dictGet sim.values n.name ∧
        h.getLast? = dictGet sim2.values n.name := by
  obtain ⟨hg, _, hv, hh⟩ := mkSim_ok_fields graph opts sim hok
  intro k
  induction k with
  | zero =>
    refine ⟨sim, rfl, hg, ?_⟩
    intro n hn
    have hm : n.name ∈ graph.nodes.map Node.name := List.mem_map_of_mem _ hn
    have hi := initVH_mem opts.initialValues graph.nodes [] [] n.name hm
    refine ⟨[jsOr (dictGet opts.initialValues n.name) DEFAULT_INITIAL_VALUE], ?_, rfl, ?_, ?_⟩
    · rw [hh]; exact hi.2
    · rw [hv, hi.1]; rfl
    · rw [hv, hi.1]; rfl
  | succ k ih =>
    rcases ih with ⟨sim2, hiter, hg2, hinv⟩
    have hnodup2 : (sim2.graph.nodes.map Node.name).Nodup := by
      rw [hg2]; exact hnodup
    have hhs2 : ∀ m ∈ sim2.graph.nodes, (dictGet sim2.history m.name).isSome := by
      rw [hg2]
      intro m hm
      rcases hinv m hm with ⟨h, hsome, _⟩
      rw [hsome]; rfl
    rcases run_ok sim2 hnodup2 hhs2 with ⟨sim3, hrun, hg3, _, _, _, hvals⟩
    refine ⟨sim3, ?_, by rw [hg3, hg2], ?_⟩
    · rw [iterRun_succ_right k sim, hiter]
      exact hrun
    · intro n hn
      have hn2 : n ∈ sim2.graph.nodes := by rw [hg2]; exact hn
      rcases hinv n hn with ⟨h, hsome, hlen, hhead, hlast⟩
      rcases hvals n hn2 with ⟨hv3, hh3⟩
      refine ⟨h ++ [stepValue sim2 n], ?_, ?_, ?_, ?_⟩
      · rw [hh3, hsome]
        rfl
      · simp [hlen]
      · cases h with
        | nil => simp at hlen
        | cons a t => simpa using hhead
      · rw [hv3]
        simp

/-- C10: after `k` runs every node's history has length `k + 1`, starts at
the node's initial value, ends at the node's current value, and the next run
only appends to it. -/
theorem c10_history_invariant :
    ∀ (graph : AdjacencyList) (opts : SimOptions) (sim : GraphSimulatorSimple),
      (graph.nodes.map Node.name).Nodup →
      mkGraphSimulatorSimple graph opts = .ok sim →
      ∀ k, ∃ sim2, iterRun k sim = .ok sim2 ∧
        ∀ n ∈ graph.nodes, ∃ h, dictGet sim2.history n.name = some h ∧
          h.length = k + 1 ∧ h.head? = dictGet sim.values n.name ∧
          h.getLast? = dictGet sim2.values n.name ∧
          ∀ sim3, iterRun (k + 1) sim = .ok sim3 →
            ∃ x, dictGet sim3.history n.name = some (h ++ [x]) := by
  intro graph opts sim hnodup hok k
  rcases c10_aux graph opts sim hnodup hok k with ⟨sim2, hiter, hg2, hinv⟩
  have hnodup2 : (sim2.graph.nodes.map Node.name).Nodup := by
    rw [hg2]; exact hnodup
  have hhs2 : ∀ m ∈ sim2.graph.nodes, (dictGet sim2.history m.name).isSome := by
    rw [hg2]
    intro m hm
    rcases hinv m hm with ⟨h, hsome, _⟩
    rw [hsome]; rfl
  rcases run_ok sim2 hnodup2 hhs2 with ⟨sim3', hrun, _, _, _, _, hvals⟩
  refine ⟨sim2, hiter, ?_⟩
  intro n hn
  rcases hinv n hn with ⟨h, hsome, hlen, hhead, hlast⟩
  refine ⟨h, hsome, hlen, hhead, hlast, ?_⟩
  intro sim3 h3
  rw [iterRun_succ_right k sim, hiter] at h3
  have h3' : sim2.run = .ok sim3 := h3
  have heq : sim3 = sim3' := Except.ok.inj (h3'.symm.trans hrun)
  subst heq
  have hn2 : n ∈ sim2.graph.nodes := by rw [hg2]; exact hn
  refine ⟨stepValue sim2 n, ?_⟩
  rw [(hvals n hn2).2, hsome]
  rfl

/-- Witness for C10: the invariant instantiated at `A -> B` with the default
configuration and two runs. -/
theorem c10_history_invariant_witness :
    ∃ sim2, iterRun 2 c10WitSim = .ok sim2 ∧
      ∀ n ∈ witGraphAB.nodes, ∃ h, dictGet sim2.history n.name = some h ∧
        h.length = 2 + 1 ∧ h.head? = dictGet c10WitSim.values n.name ∧
        h.getLast? = dictGet sim2.values n.name ∧
        ∀ sim3, iterRun (2 + 1) c10WitSim = .ok sim3 →
          ∃ x, dictGet sim3.history n.name = some (h ++ [x]) :=
  c10_history_invariant witGraphAB {} c10WitSim (by decide)
    (by with_unfolding_all rfl) 2

/-- C8 (amended): an individually specified *nonzero* initial value `v` is
stored as the node's value and as its one-element history; a zero entry
falls back to the shared default 1 because of the `||` fallback (see the
counterexample). -/
theorem c8_initial_values :
    ∀ (graph : AdjacencyList) (opts : SimOptions) (n : Node) (v : ℚ)
      (sim : GraphSimulatorSimple),
      n ∈ graph.nodes → dictGet opts.initialValues n.name = some v → v ≠ 0 →
      mkGraphSimulatorSimple graph opts = .ok sim →
      dictGet sim.values n.name = some v ∧ dictGet sim.history n.name = some [v] := by
  intro graph opts n v sim hmem hv hv0 hok
  obtain ⟨-, -, hvals, hhist⟩ := mkSim_ok_fields graph opts sim hok
  have hm : n.name ∈ graph.nodes.map Node.name := List.mem_map_of_mem _ hmem
  have hi := initVH_mem opts.initialValues graph.nodes [] [] n.name hm
  rw [hvals, hhist, hi.1, hi.2]
  simp [jsOr, hv, hv0]

/-- Witness for C8: the nonzero initial value 3 for `A` is stored verbatim. -/
theorem c8_initial_values_witness :
    dictGet c8WitSim.values "A" = some 3 ∧ dictGet c8WitSim.history "A" = some [3] :=
  c8_initial_values witGraphAB { initialValues := [("A", 3)] }
    { name := "A", label := "A",
      adjacentEdges := [{ targetName := "B", isOpposite := false }] }
    3 c8WitSim (by decide) (by with_unfolding_all rfl) (by norm_num)
    (by with_unfolding_all rfl)

/-! Parse-error characterization for C4. -/

theorem parseNodeName_edges (s : String) : (parseNodeName s).adjacentEdges = [] := by
  unfold parseNodeName
  split
  · rfl
  · split
    · rfl
    · split <;> rfl

/-- A non-comment, non-blank line fails to parse exactly when the text before
its trailing `//` comment does not split into two parts around `->`. -/
theorem parseCGMLLine_error_iff (line : String) :
    (∃ e, parseCGMLLine line = .error e) ↔
      (¬ jsStartsWith (jsTrim line) "//" ∧ ¬ jsTrim line = "" ∧
        (jsSplitOn "->" ((jsSplitOn "//" line).headD "")).length ≠ 2) := by
  unfold parseCGMLLine
  by_cases h1 : jsStartsWith (jsTrim line) "//"
  · rw [if_pos h1]
    refine iff_of_false ?_ ?_
    · rintro ⟨e, he⟩
      exact Except.noConfusion he
    · rintro ⟨hna, _, _⟩
      exact hna h1
  · rw [if_neg h1]
    by_cases h2 : jsTrim line == ""
    · rw [if_pos h2]
      refine iff_of_false ?_ ?_
      · rintro ⟨e, he⟩
        exact Except.noConfusion he
      · rintro ⟨_, hnb, _⟩
        exact hnb (eq_of_beq h2)
    · rw [if_neg h2]
      by_cases h3 : (jsSplitOn "->" ((jsSplitOn "//" line).headD "")).length ≠ 2
      · rw [if_pos h3]
        refine iff_of_true ⟨_, rfl⟩ ⟨h1, by simpa using h2, h3⟩
      · rw [if_neg h3]
        refine iff_of_false ?_ ?_
        · rintro ⟨e, he⟩
          exact Except.noConfusion he
        · rintro ⟨_, _, hc⟩
          exact h3 hc

theorem parseCGMLLine_ok_shape (line : String) (sub : AdjacencyList)
    (h : parseCGMLLine line = .ok sub) :
    sub.nodes = [] ∨
      ∃ src tgt e, sub.nodes = [src, tgt] ∧ src.adjacentEdges = [e] ∧
        e.targetName = tgt.name ∧ tgt.adjacentEdges = [] := by
  unfold parseCGMLLine at h
  by_cases h1 : jsStartsWith (jsTrim line) "//"
  · rw [if_pos h1] at h
    injection h with h2
    left
    rw [← h2]
  · rw [if_neg h1] at h
    by_cases h2 : jsTrim line == ""
    · rw [if_pos h2] at h
      injection h with h3
      left
      rw [← h3]
    · rw [if_neg h2] at h
      by_cases h3 : (jsSplitOn "->" ((jsSplitOn "//" line).headD "")).length ≠ 2
      · rw [if_pos h3] at h
        exact Except.noConfusion h
      · rw [if_neg h3] at h
        have hsub := (Except.ok.inj h).symm
        subst hsub
        right
        exact ⟨_, _, _, rfl, rfl, rfl, parseNodeName_edges _⟩

theorem nameProp_not_mem (edges : List Edge) (nm : String) :
    some nm ∉ edges.map Edge.nameProp := by
  intro h
  rcases List.mem_map.mp h with ⟨e, _, he⟩
  exact Option.noConfusion he

theorem concatEdges_line_ok (g sub : AdjacencyList) (i : Nat) (e : Edge)
    (htgt : ∃ x, sub.findNodeByName e.targetName = some x) :
    ∃ g2, concatEdges g sub i [e] = .ok g2 := by
  unfold concatEdges
  rw [if_neg (nameProp_not_mem _ _)]
  rcases hg : g.findNodeByName e.targetName with _ | x
  · rcases htgt with ⟨x, hx⟩
    simp only [hg, hx]
    exact ⟨_, rfl⟩
  · simp only [hg]
    exact ⟨_, rfl⟩

theorem concatNodes_singleton_ok (g sub : AdjacencyList) (tgt : Node)
    (hedges : tgt.adjacentEdges = []) :
    ∃ g2, concatNodes g sub [tgt] = .ok g2 := by
  unfold concatNodes
  rcases hidx : g.nodes.findIdx? (fun node => node.name == tgt.name) with _ | i
  · simp only [hidx]
    exact ⟨_, rfl⟩
  · simp only [hidx, hedges]
    exact ⟨g, rfl⟩

/-- Merging any mini graph produced by `parseCGMLLine` never hits the
`TypeError` branch of `concat`. -/
theorem concat_line_ok (g sub : AdjacencyList)
    (hshape : sub.nodes = [] ∨
      ∃ src tgt e, sub.nodes = [src, tgt] ∧ src.adjacentEdges = [e] ∧
        e.targetName = tgt.name ∧ tgt.adjacentEdges = []) :
    ∃ g2, g.concat sub = .ok g2 := by
  unfold AdjacencyList.concat
  rcases hshape with hnil | ⟨src, tgt, e, hnodes, hsrc, htgt, htedges⟩
  · rw [hnil]
    exact ⟨g, rfl⟩
  · rw [hnodes]
    have htgtfind : ∃ x, sub.findNodeByName e.targetName = some x := by
      unfold AdjacencyList.findNodeByName
      rw [hnodes, htgt]
      by_cases hst : src.name == tgt.name
      · exact ⟨src, by simp [List.find?_cons, hst]⟩
      · exact ⟨tgt, by simp [List.find?_cons, hst]⟩
    unfold concatNodes
    rcases hidx : g.nodes.findIdx? (fun node => node.name == src.name) with _ | i
    · simp only [hidx]
      exact concatNodes_singleton_ok _ sub tgt htedges
    · simp only [hidx, hsrc]
      rcases concatEdges_line_ok g sub i e htgtfind with ⟨g2, hg2⟩
      rw [hg2]
      exact concatNodes_singleton_ok g2 sub tgt htedges

theorem parseCGMLLines_error_iff :
    ∀ (lines : List String) (g : AdjacencyList),
      (∃ e, parseCGMLLines g lines = .error e) ↔
        ∃ line ∈ lines, ∃ e, parseCGMLLine line = .error e := by
  intro lines
  induction lines with
  | nil =>
    intro g
    simp [parseCGMLLines]
  | cons line rest ih =>
    intro g
    rcases hl : parseCGMLLine line with e0 | sub
    · refine iff_of_true ?_ ⟨line, List.mem_cons_self _ _, e0, hl⟩
      refine ⟨e0, ?_⟩
      unfold parseCGMLLines
      rw [hl]
    · rcases concat_line_ok g sub (parseCGMLLine_ok_shape line sub hl) with ⟨g2, hc⟩
      have hstep : parseCGMLLines g (line :: rest) = parseCGMLLines g2 rest := by
        conv_lhs => rw [parseCGMLLines]
        simp only [hl, hc]
      rw [hstep, ih g2]
      constructor
      · rintro ⟨l, hlmem, he⟩
        exact ⟨l, List.mem_cons_of_mem _ hlmem, he⟩
      · rintro ⟨l, hlmem, he⟩
        rcases List.mem_cons.mp hlmem with rfl | hl2
        · rcases he with ⟨e2, he2⟩
          rw [hl] at he2
          exact Except.noConfusion he2
        · exact ⟨l, hl2, he⟩

/-- C4 (amended): parsing a description fails — aborting the whole parse with
no graph returned — exactly when some line of the trimmed input is neither a
comment nor blank and the text before its trailing `//` comment does not
contain exactly one `->` (arrows inside the trailing comment do not count;
see the counterexample). -/
theorem c4_parse_error_iff :
    ∀ (id cgml : String),
      (∃ e, parseCGML id cgml = .error e) ↔
        ∃ line ∈ jsSplitOn "\n" (jsTrim cgml),
          ¬ jsStartsWith (jsTrim line) "//" ∧ ¬ jsTrim line = "" ∧
          (jsSplitOn "->" ((jsSplitOn "//" line).headD "")).length ≠ 2 := by
  intro id cgml
  have h1 : (∃ e, parseCGML id cgml = .error e) ↔
      (∃ e, parseCGMLLines { nodes := [], id := id }
        (jsSplitOn "\n" (jsTrim cgml)) = .error e) := by
    unfold parseCGML
    rcases hp : parseCGMLLines { nodes := [], id := id }
        (jsSplitOn "\n" (jsTrim cgml)) with e0 | g
    · exact iff_of_true ⟨e0, rfl⟩ ⟨e0, rfl⟩
    · refine iff_of_false ?_ ?_
      · rintro ⟨e, he⟩
        exact Except.noConfusion he
      · rintro ⟨e, he⟩
        exact Except.noConfusion he
  rw [h1, parseCGMLLines_error_iff]
  constructor
  · rintro ⟨l, hm, he⟩
    exact ⟨l, hm, (parseCGMLLine_error_iff l).mp he⟩
  · rintro ⟨l, hm, he⟩
    exact ⟨l, hm, (parseCGMLLine_error_iff l).mpr he⟩

/-- Witness for C4: a line with two top-level arrows aborts the parse. -/
theorem c4_parse_error_iff_witness :
    ∃ e, parseCGML "w4" "A -> B -> C" = .error e :=
  (c4_parse_error_iff "w4" "A -> B -> C").mpr
    ⟨"A -> B -> C", by decide, by decide, by decide, by decide⟩

theorem sum_range_getD (arr : List ℚ) :
    ∀ (cnt s : Nat), s + cnt ≤ arr.length →
      ((List.range cnt).map (fun j => arr.getD (s + j) 0)).sum =
        ((arr.drop s).take cnt).sum := by
  intro cnt
  induction cnt with
  | zero => intro s _; simp
  | succ cnt ih =>
    intro s hle
    have hs : s < arr.length := by omega
    rw [List.range_succ_eq_map]
    rw [List.map_cons, List.map_map, List.sum_cons]
    have hshift : ((List.range cnt).map ((fun j => arr.getD (s + j) 0) ∘ Nat.succ)).sum =
        ((List.range cnt).map (fun j => arr.getD (s + 1 + j) 0)).sum := by
      congr 1
      refine List.map_congr_left ?_
      intro j _
      simp only [Function.comp]
      congr 1
      omega
    rw [hshift, ih (s + 1) (by omega)]
    rw [List.drop_eq_getElem_cons hs, List.take_succ_cons, List.sum_cons]
    have hg : arr.getD (s + 0) 0 = arr[s] := by
      rw [Nat.add_zero]
      exact List.getD_eq_getElem arr 0 hs
    rw [hg]

theorem meanBetween_eval (arr : List ℚ) (b i : Nat) (hb : 0 < b)
    (hn : 2 * b ≤ arr.length) (hi : i < b) :
    meanBetween arr ⌊(i : ℚ) * ((arr.length : ℚ) / (b : ℚ))⌋
      (⌊((i : ℚ) + 1) * ((arr.length : ℚ) / (b : ℚ))⌋ - 1) = .ok (binMean arr b i) := by
  have hn0 : 0 < arr.length := by omega
  have hf1 : ⌊(i : ℚ) * ((arr.length : ℚ) / (b : ℚ))⌋ =
      ((i * arr.length / b : ℕ) : ℤ) := by
    have hc : (i : ℚ) * ((arr.length : ℚ) / (b : ℚ)) =
        ((i * arr.length : ℕ) : ℚ) / ((b : ℕ) : ℚ) := by
      push_cast
      ring
    rw [hc, Rat.floor_natCast_div_natCast, Int.natCast_div]
  have hf2 : ⌊((i : ℚ) + 1) * ((arr.length : ℚ) / (b : ℚ))⌋ =
      (((i + 1) * arr.length / b : ℕ) : ℤ) := by
    have hc : ((i : ℚ) + 1) * ((arr.length : ℚ) / (b : ℚ)) =
        (((i + 1) * arr.length : ℕ) : ℚ) / ((b : ℕ) : ℚ) := by
      push_cast
      ring
    rw [hc, Rat.floor_natCast_div_natCast, Int.natCast_div]
  have hlo_lt : i * arr.length / b < arr.length := by
    rw [Nat.div_lt_iff_lt_mul hb, Nat.mul_comm arr.length b]
    exact Nat.mul_lt_mul_of_pos_right hi hn0
  have hhi_le : (i + 1) * arr.length / b ≤ arr.length := by
    have h1 : (i + 1) * arr.length ≤ b * arr.length :=
      Nat.mul_le_mul_right _ hi
    have h2 := Nat.div_le_div_right (c := b) h1
    rwa [Nat.mul_div_cancel_left _ hb] at h2
  have hgap : i * arr.length / b + 2 ≤ (i + 1) * arr.length / b := by
    have h1 : i * arr.length + 2 * b ≤ (i + 1) * arr.length := by
      have : (i + 1) * arr.length = i * arr.length + arr.length := by ring
      omega
    have h2 := Nat.div_le_div_right (c := b) h1
    rwa [Nat.add_mul_div_right _ _ hb] at h2
  rw [hf1, hf2]
  unfold meanBetween
  unfold binMean
  obtain ⟨lo, hL⟩ : ∃ lo, i * arr.length / b = lo := ⟨_, rfl⟩
  obtain ⟨hi2, hH⟩ : ∃ hi2, (i + 1) * arr.length / b = hi2 := ⟨_, rfl⟩
  rw [hL] at hlo_lt hgap ⊢
  rw [hH] at hhi_le hgap ⊢
  clear hL hH hf1 hf2
  rw [if_neg (by omega)]
  rw [if_neg (by omega)]
  have hs : ((lo : ℕ) : ℤ).toNat = lo := by omega
  have he : (((hi2 : ℕ) : ℤ) - 1).toNat = hi2 - 1 := by omega
  rw [hs, he]
  have hcnt : hi2 - 1 - lo + 1 = hi2 - lo := by omega
  rw [hcnt]
  rw [sum_range_getD arr _ _ (by omega)]

theorem downsampleLoop_ok (arr : List ℚ) (b : Nat) (hb : 0 < b)
    (hn : 2 * b ≤ arr.length) :
    ∀ (l : List Nat), (∀ i ∈ l, i < b) →
      downsampleLoop arr ((arr.length : ℚ) / (b : ℚ)) l = .ok (l.map (binMean arr b)) := by
  intro l
  induction l with
  | nil => intro _; rfl
  | cons i rest ih =>
    intro hmem
    have h1 := meanBetween_eval arr b i hb hn (hmem i (List.mem_cons_self _ _))
    conv_lhs => rw [downsampleLoop]
    rw [h1, ih (fun j hj => hmem j (List.mem_cons_of_mem _ hj))]
    rfl

/-- C9 (amended): downsampling fails when the bin count exceeds the array
length; when every bin holds at least two indices — in particular whenever
`2·binCount ≤ arr.length` — it returns `binCount` values, the i-th being the
mean of the raw values at indices in `[⌊i·n/b⌋, ⌊(i+1)·n/b⌋)`; a bin with
fewer than two indices makes `meanBetween` throw instead (see the
counterexample).  In particular `[1..9]` into 3 bins yields `[2, 5, 8]`. -/
theorem c9_downsample :
    (∀ (arr : List ℚ) (binCount : Nat), arr.length < binCount →
      ∃ e, downsample arr binCount = .error e) ∧
    (∀ (arr : List ℚ) (binCount : Nat), 0 < binCount → 2 * binCount ≤ arr.length →
      downsample arr binCount = .ok ((List.range binCount).map (binMean arr binCount))) ∧
    downsample [1, 2, 3, 4, 5, 6, 7, 8, 9] 3 = .ok [2, 5, 8] := by
  refine ⟨?_, ?_, by with_unfolding_all rfl⟩
  · intro arr binCount h
    unfold downsample
    rw [if_pos h]
    exact ⟨_, rfl⟩
  · intro arr binCount hb hn
    unfold downsample
    rw [if_neg (by omega)]
    exact downsampleLoop_ok arr binCount hb hn (List.range binCount)
      (fun i hi => List.mem_range.mp hi)

/-- Witness for C9: both general statements instantiated — 4 bins on a
3-element array fail, and 2 bins on `[1,2,3,4]` give the two bin means. -/
theorem c9_downsample_witness :
    (∃ e, downsample [1, 2, 3] 4 = .error e) ∧
    downsample [1, 2, 3, 4] 2 = .ok ((List.range 2).map (binMean [1, 2, 3, 4] 2)) :=
  ⟨c9_downsample.1 [1, 2, 3] 4 (by decide),
   c9_downsample.2.1 [1, 2, 3, 4] 2 (by decide) (by decide)⟩

end CLD
